import Mathlib

/-!
# mcp-changelog-promoter: the source normalisation layer

A shallow embedding of `pkg/changelog/gitchglog/adapter.go` (the live extractor that drives
`git-chglog` and `git`) and of the static `CHANGELOG.md` parser exercised by
`pkg/changelog/releaseit/adapter_test.go`, followed by theorems about them.

Conventions of the embedding:

* a Go `string` is a sequence of bytes (`GoString`); `len` is the number of bytes and
  `s[:n]` keeps the first `n` bytes, exactly as in Go;
* the outside world (external processes, the file system, the standard error stream) is an
  explicit `World` oracle together with a log of the events performed so far; the answer of
  the oracle may depend on the whole log, so a command may answer differently each time;
* an `error` value is represented by its message.
-/

set_option autoImplicit false

namespace ChangelogPromoter

/-! ## Strings -/

/-- A Go string: a finite sequence of bytes. -/
abbrev GoString := List UInt8

/-- The bytes of a string literal (UTF-8, as the Go compiler stores it). -/
def utf8 (s : String) : GoString := s.data.flatMap String.utf8EncodeChar

/-- The six ASCII bytes that `strings.TrimSpace` treats as white space. -/
def asciiSpace (c : UInt8) : Bool :=
  c = 9 || c = 10 || c = 11 || c = 12 || c = 13 || c = 32

/-- Two-byte UTF-8 encodings of white space: U+0085 and U+00A0. -/
def isSpace2 (a b : UInt8) : Bool :=
  a = 0xC2 && (b = 0x85 || b = 0xA0)

/-- Three-byte UTF-8 encodings of white space: U+1680, U+2000..U+200A, U+2028, U+2029,
U+202F, U+205F and U+3000. -/
def isSpace3 (a b c : UInt8) : Bool :=
  (a = 0xE1 && b = 0x9A && c = 0x80) ||
  (a = 0xE2 && b = 0x80 && ((0x80 ≤ c && c ≤ 0x8A) || c = 0xA8 || c = 0xA9 || c = 0xAF)) ||
  (a = 0xE2 && b = 0x81 && c = 0x9F) ||
  (a = 0xE3 && b = 0x80 && c = 0x80)

/-- Drop leading white-space runes (`strings.TrimLeftFunc(s, unicode.IsSpace)`): a rune is
white space exactly when its bytes are one of the encodings above; any other byte sequence,
an ill-formed one included, decodes to a rune that is not white space. -/
def trimLeft : GoString → GoString
  | [] => []
  | [a] => if asciiSpace a then [] else [a]
  | [a, b] =>
    if asciiSpace a then trimLeft [b]
    else if isSpace2 a b then []
    else [a, b]
  | a :: b :: c :: rest =>
    if asciiSpace a then trimLeft (b :: c :: rest)
    else if isSpace2 a b then trimLeft (c :: rest)
    else if isSpace3 a b c then trimLeft rest
    else a :: b :: c :: rest

/-- Drop trailing white-space runes, working on the reversed string (so the encodings are
read last byte first). -/
def trimRightRev : GoString → GoString
  | [] => []
  | [a] => if asciiSpace a then [] else [a]
  | [b, a] =>
    if asciiSpace b then trimRightRev [a]
    else if isSpace2 a b then []
    else [b, a]
  | c :: b :: a :: rest =>
    if asciiSpace c then trimRightRev (b :: a :: rest)
    else if isSpace2 b c then trimRightRev (a :: rest)
    else if isSpace3 a b c then trimRightRev rest
    else c :: b :: a :: rest

/-- Go `strings.TrimSpace`: leading white space is removed first, then trailing. -/
def TrimSpace (s : GoString) : GoString :=
  (trimRightRev (trimLeft s).reverse).reverse

/-- Go `strings.Split(s, "\n")`: the pieces between newline bytes; the empty string gives
one empty piece. -/
def splitLines : GoString → List GoString
  | [] => [[]]
  | c :: cs =>
    if c = 10 then [] :: splitLines cs
    else
      match splitLines cs with
      | [] => [[c]]
      | l :: ls => (c :: l) :: ls

/-- Go `strings.Contains`. -/
def Contains : GoString → GoString → Bool
  | [], sub => sub.isEmpty
  | c :: cs, sub => sub.isPrefixOf (c :: cs) || Contains cs sub

/-! ## The data model (`pkg/changelog/entry.go`) -/

/-- The canonical release record. -/
structure VersionEntry where
  ProjectName : GoString
  Version : GoString
  Date : GoString
  Description : GoString
  CodeDiff : GoString
  Readme : GoString
  SourceAdapter : GoString
  deriving DecidableEq, Repr

/-! ## The outside world -/

/-- What running an external command gives: its standard output when it exits cleanly,
otherwise the text of the Go error and what the command wrote to standard error. -/
inductive Outcome where
  | ok (stdout : GoString)
  | fail (errMsg : GoString) (stderr : GoString)
  deriving DecidableEq, Repr

/-- True of a command that failed. -/
def Outcome.failed : Outcome → Bool
  | .ok _ => false
  | .fail _ _ => true

/-- The observable effects of the adapter, in the order they happen. -/
inductive Event where
  | run (dir : GoString) (name : GoString) (args : List GoString)
  | readFile (path : GoString)
  | warn (msg : GoString)
  deriving DecidableEq, Repr

/-- A calendar date as held by a parsed `time.Time` (in the zone written in the text). -/
structure GoTime where
  year : Nat
  month : Nat
  day : Nat
  deriving DecidableEq, Repr

/-- The environment of one call. `exec` and `readFile` answer from the log of earlier
events, so nothing is assumed about two runs of the same command. The remaining fields
are standard-library functions that the adapter calls and that are not part of the
repository: `time.Parse(time.RFC3339, _)` and the platform dependent `filepath.Base` and
`filepath.Join`. -/
structure World where
  exec : List Event → GoString → GoString → List GoString → Outcome
  readFile : List Event → GoString → Except GoString GoString
  parseRFC3339 : GoString → Option GoTime
  filepathBase : GoString → GoString
  filepathJoin : GoString → GoString → GoString

/-- Run `name args` in directory `dir` (`exec.Command(name, args...)` with `cmd.Dir = dir`,
then `Run` or `Output`) and record it. -/
def World.run (w : World) (log : List Event) (dir name : GoString) (args : List GoString) :
    Outcome × List Event :=
  (w.exec log dir name args, log ++ [Event.run dir name args])

/-- Call `os.ReadFile(path)` and record it. -/
def World.read (w : World) (log : List Event) (path : GoString) :
    Except GoString GoString × List Event :=
  (w.readFile log path, log ++ [Event.readFile path])

/-- The decimal digits of `n`, padded on the left with zeros to `width` digits. -/
def padInt (width n : Nat) : GoString :=
  let ds := (Nat.toDigits 10 n).map (fun c => c.toNat.toUInt8)
  List.replicate (width - ds.length) 48 ++ ds

/-- Go `t.Format("2006-01-02")`. -/
def GoTime.format (t : GoTime) : GoString :=
  padInt 4 t.year ++ utf8 "-" ++ padInt 2 t.month ++ utf8 "-" ++ padInt 2 t.day

/-! ## `pkg/changelog/gitchglog/adapter.go` -/

/-- The placeholder for a changelog body that could not be generated. -/
def changelogPlaceholder : GoString := utf8 "无法生成 Changelog 内容。"

/-- The placeholder for a code diff that could not be obtained. -/
def diffPlaceholder : GoString := utf8 "无法获取代码变更。"

/-- The placeholder for a README that could not be read. -/
def readmePlaceholder : GoString := utf8 "无法读取 README 内容。"

/-- The marker appended to a diff cut at 5000 bytes. -/
def diffMarker : GoString := utf8 "\n...(diff 截断)"

/-- The marker appended to a shortened README. -/
def readmeMarker : GoString := utf8 "\n...(README 截断)"

/-- The error returned when the `git-chglog` binary is not found. -/
def toolNotFoundMsg : GoString :=
  utf8 "'git-chglog' command not found in PATH. Please install git-chglog: https://github.com/git-chglog/git-chglog"

/-- Source `checkGitChglogExists`: run `git-chglog --version` in the repository; `none` is
the `nil` error. -/
def checkGitChglogExists (w : World) (log : List Event) (repoPath : GoString) :
    Option GoString × List Event :=
  match w.run log repoPath (utf8 "git-chglog") [utf8 "--version"] with
  | (.ok _, log1) => (none, log1)
  | (.fail errMsg stderrStr, log1) =>
    if Contains errMsg (utf8 "executable file not found")
        || Contains errMsg (utf8 "no such file or directory") then
      (some toolNotFoundMsg, log1)
    else
      (some (utf8 "检查 'git-chglog --version' 在目录 '" ++ repoPath ++ utf8 "' 执行失败: "
        ++ errMsg ++ utf8 "\nStderr:\n" ++ stderrStr), log1)

/-- Step 1 of `GetVersionEntry`: `git describe --tags --abbrev=0 version^`. Gives
`(prevTag, tagRange)`; `prevTag` stays empty when the command fails. -/
def resolvePrevTag (w : World) (log : List Event) (repoPath version : GoString) :
    (GoString × GoString) × List Event :=
  match w.run log repoPath (utf8 "git")
      [utf8 "describe", utf8 "--tags", utf8 "--abbrev=0", version ++ utf8 "^"] with
  | (.fail _ _, log1) => (([], version), log1)
  | (.ok prevTagOutput, log1) =>
    let prevTag := TrimSpace prevTagOutput
    ((prevTag, prevTag ++ utf8 ".." ++ version), log1)

/-- Step 2 of `GetVersionEntry`: `git-chglog tagRange`, then the fallback
`git-chglog --output version`, then the placeholder (with a warning). -/
def generateChangelog (w : World) (log : List Event) (repoPath version tagRange : GoString) :
    GoString × List Event :=
  match w.run log repoPath (utf8 "git-chglog") [tagRange] with
  | (.ok chglogOutput, log1) => (chglogOutput, log1)
  | (.fail _ _, log1) =>
    match w.run log1 repoPath (utf8 "git-chglog") [utf8 "--output", version] with
    | (.ok chglogOutput, log2) => (chglogOutput, log2)
    | (.fail errMsg stderrStr, log2) =>
      (changelogPlaceholder,
        log2 ++ [Event.warn (utf8 "Warning: git-chglog failed (range '" ++ tagRange
          ++ utf8 "', '--output " ++ version ++ utf8 "'): " ++ errMsg
          ++ utf8 "\nStderr: " ++ stderrStr ++ utf8 "\n")])

/-- Step 3 of `GetVersionEntry`: `git show -s --format=%cI version`, parsed as RFC 3339
and printed as `YYYY-MM-DD`; empty when the command or the parse fails. -/
def tagDate (w : World) (log : List Event) (repoPath version : GoString) :
    GoString × List Event :=
  match w.run log repoPath (utf8 "git")
      [utf8 "show", utf8 "-s", utf8 "--format=%cI", version] with
  | (.ok dateOutput, log1) =>
    match w.parseRFC3339 (TrimSpace dateOutput) with
    | some tagTime => (tagTime.format, log1)
    | none => ([], log1)
  | (.fail _ _, log1) => ([], log1)

/-- Step 5.1 of `GetVersionEntry`: the code diff. -/
def codeDiffStep (w : World) (log : List Event) (repoPath version prevTag : GoString) :
    GoString × List Event :=
  let diffArgs : List GoString :=
    if prevTag ≠ [] then [utf8 "diff", prevTag, version] else [utf8 "show", version]
  match w.run log repoPath (utf8 "git") diffArgs with
  | (.ok diffOutput, log1) =>
    let codeDiff := diffOutput
    if codeDiff.length > 5000 then
      let nameStatusArgs : List GoString :=
        if prevTag ≠ [] then [utf8 "diff", utf8 "--name-status", prevTag, version]
        else [utf8 "show", utf8 "--name-status", version]
      let (nsResult, log2) := w.run log1 repoPath (utf8 "git") nameStatusArgs
      let codeDiff :=
        match nsResult with
        | .ok nameStatusOutput => nameStatusOutput
        | .fail _ _ => codeDiff
      if codeDiff.length > 5000 then
        (codeDiff.take 5000 ++ diffMarker, log2)
      else (codeDiff, log2)
    else (codeDiff, log1)
  | (.fail errMsg _, log1) =>
    (diffPlaceholder,
      log1 ++ [Event.warn (utf8 "Warning: Failed to get code diff for " ++ version
        ++ utf8 ": " ++ errMsg ++ utf8 "\n")])

/-- The loop of step 5.2 over the lines of the README: `acc` is the string builder,
`lineCount` the number of lines written so far. -/
def truncateReadmeLoop : List GoString → GoString → Nat → GoString
  | [], acc, _ => acc
  | line :: rest, acc, lineCount =>
    let trimmedLine := TrimSpace line
    if trimmedLine = [] then truncateReadmeLoop rest acc lineCount
    else
      let acc := acc ++ trimmedLine ++ utf8 "\n"
      let lineCount := lineCount + 1
      if lineCount ≥ 30 then acc
      else truncateReadmeLoop rest acc lineCount

/-- Step 5.2 of `GetVersionEntry`: the README. -/
def readmeStep (w : World) (log : List Event) (repoPath : GoString) :
    GoString × List Event :=
  let readmePath := w.filepathJoin repoPath (utf8 "README.md")
  match w.read log readmePath with
  | (.ok readmeData, log1) =>
    let readmeContent := readmeData
    if readmeContent.length > 2000 then
      let readmeLines := splitLines readmeContent
      (truncateReadmeLoop readmeLines [] 0 ++ readmeMarker, log1)
    else (readmeContent, log1)
  | (.error readErr, log1) =>
    (readmePlaceholder,
      log1 ++ [Event.warn (utf8 "Warning: Failed to read README.md in " ++ repoPath
        ++ utf8 ": " ++ readErr ++ utf8 "\n")])

/-- Source `Adapter.GetVersionEntry`. The result is the entry, or the message of the
error; the second component is the log after the call. -/
def GetVersionEntry (w : World) (log : List Event) (repoPath version : GoString) :
    Except GoString VersionEntry × List Event :=
  match checkGitChglogExists w log repoPath with
  | (some err, log0) => (.error err, log0)
  | (none, log0) =>
    let ((prevTag, tagRange), log1) := resolvePrevTag w log0 repoPath version
    let (changelogDesc, log2) := generateChangelog w log1 repoPath version tagRange
    let (dateStr, log3) := tagDate w log2 repoPath version
    let projectName := w.filepathBase repoPath
    let (codeDiff, log4) := codeDiffStep w log3 repoPath version prevTag
    let (readmeContent, log5) := readmeStep w log4 repoPath
    (.ok {
      ProjectName := projectName
      Version := version
      Date := dateStr
      Description := changelogDesc
      CodeDiff := codeDiff
      Readme := readmeContent
      SourceAdapter := utf8 "git-chglog" }, log5)

/-- Source `Adapter.GetLatestEntry`. -/
def GetLatestEntry (w : World) (log : List Event) (repoPath : GoString) :
    Except GoString VersionEntry × List Event :=
  match checkGitChglogExists w log repoPath with
  | (some err, log0) => (.error err, log0)
  | (none, log0) =>
    match w.run log0 repoPath (utf8 "git")
        [utf8 "describe", utf8 "--tags", utf8 "--abbrev=0"] with
    | (.fail errMsg _, log1) => (.error (utf8 "获取最新 tag 失败：" ++ errMsg), log1)
    | (.ok latestTagOutput, log1) =>
      let latestTag := TrimSpace latestTagOutput
      if latestTag = [] then (.error (utf8 "未能找到任何 tag"), log1)
      else GetVersionEntry w log1 repoPath latestTag

/-! ### The low-information heuristic -/

/-- A value of Go's `float64` type that is finite, held as the rational number it denotes. -/
abbrev Float64 := ℚ

/-- The integer nearest to `x`, the even one of the two when `x` lies half way. -/
def roundHalfEven (x : ℚ) : ℤ :=
  let f := ⌊x⌋
  let r := x - f
  if r < 1 / 2 then f
  else if 1 / 2 < r then f + 1
  else if f % 2 = 0 then f else f + 1

/-- The binary64 number nearest to `x` (IEEE 754 round-to-nearest, ties-to-even):
53 significant bits at the binary exponent of `x`, the exponent not going below -1022.
Results beyond the largest finite binary64 number are not modelled; the adapter only
converts and divides line counts. -/
def roundFloat64 (x : ℚ) : Float64 :=
  if x = 0 then 0
  else
    let e : ℤ := max (Int.log 2 |x|) (-1022)
    let ulp : ℚ := 2 ^ (e - 52)
    roundHalfEven (x / ulp) * ulp

/-- Go conversion `float64(n)` of an `int`. -/
def float64OfInt (n : ℤ) : Float64 := roundFloat64 n

/-- Go `/` on two `float64` values with a divisor that is not zero. -/
def float64Div (a b : Float64) : Float64 := roundFloat64 (a / b)

/-- A byte matched by the character class `[a-f0-9]`. -/
def isLowerHex (c : UInt8) : Bool :=
  (0x61 ≤ c && c ≤ 0x66) || (0x30 ≤ c && c ≤ 0x39)

/-- Source `commitIDPattern.MatchString` for the regular expression `^[a-f0-9]{7,40}$`:
the whole text is 7 to 40 bytes, each in the class. -/
def commitIDPattern (line : GoString) : Bool :=
  decide (7 ≤ line.length) && decide (line.length ≤ 40) && line.all isLowerHex

/-- The loop of `isOnlyCommitIDs`, giving `(commitIDLines, nonEmptyLines)`. -/
def countCommitIDLines : List GoString → Nat → Nat → Nat × Nat
  | [], commitIDLines, nonEmptyLines => (commitIDLines, nonEmptyLines)
  | line :: rest, commitIDLines, nonEmptyLines =>
    let line := TrimSpace line
    if line = [] then countCommitIDLines rest commitIDLines nonEmptyLines
    else
      let nonEmptyLines := nonEmptyLines + 1
      if commitIDPattern line then countCommitIDLines rest (commitIDLines + 1) nonEmptyLines
      else countCommitIDLines rest commitIDLines nonEmptyLines

/-- Source `isOnlyCommitIDs`. -/
def isOnlyCommitIDs (content : GoString) : Bool :=
  let lines := splitLines content
  let (commitIDLines, nonEmptyLines) := countCommitIDLines lines 0 0
  decide (nonEmptyLines > 0) &&
    decide (float64Div (float64OfInt commitIDLines) (float64OfInt nonEmptyLines) > 1 / 2)

/-! ## The static changelog parser (`pkg/changelog/releaseit`)

Only the tests of this package are available, so the parser is modelled from the
specification (section 4.1). The specification does not say which strings are version
tokens; the class of version tokens is therefore a parameter `tok` of the model. -/

/-- What the parser reports about one release section. -/
structure ParsedEntry where
  Version : GoString
  Date : GoString
  Description : GoString
  deriving DecidableEq, Repr

/-- A recognised version header: its version token and its date (empty when absent). -/
structure Header where
  token : GoString
  date : GoString
  deriving DecidableEq, Repr

/-- An ASCII decimal digit. -/
def isDigit (c : UInt8) : Bool := 0x30 ≤ c && c ≤ 0x39

/-- Modelled from the spec: the parenthetical date expression `(YYYY-MM-DD)` that may
follow the version token; gives the ten bytes between the parentheses, or the empty
string when the text does not start with such an expression. -/
def parseDateParen (s : GoString) : GoString :=
  match s with
  | 40 :: y1 :: y2 :: y3 :: y4 :: 45 :: m1 :: m2 :: 45 :: d1 :: d2 :: 41 :: _ =>
    if [y1, y2, y3, y4, m1, m2, d1, d2].all isDigit then
      [y1, y2, y3, y4, 45, m1, m2, 45, d1, d2]
    else []
  | _ => []

/-- Modelled from the spec: the version token at the start of the text after the heading
markers, bare (the bytes up to the first white space) or wrapped as a markdown link
`[token](url)`, together with the text that follows it. -/
def splitToken (s : GoString) : Option (GoString × GoString) :=
  match s with
  | 91 :: s1 =>
    let token := s1.takeWhile (fun c => c != 93)
    match s1.dropWhile (fun c => c != 93) with
    | 93 :: 40 :: s2 =>
      match s2.dropWhile (fun c => c != 41) with
      | 41 :: s3 => some (token, s3)
      | _ => none
    | _ => none
  | _ => some (s.takeWhile (fun c => !asciiSpace c), s.dropWhile (fun c => !asciiSpace c))

/-- Modelled from the spec: header recognition. A line is a version header when it starts
with one or more `#`, followed (after optional blanks) by a version token of the class
`tok`, bare or link-wrapped; the token may be followed by a parenthetical date. -/
def parseHeader (tok : GoString → Bool) (line : GoString) : Option Header :=
  match line with
  | 35 :: _ =>
    match splitToken (trimLeft (line.dropWhile (fun c => c == 35))) with
    | some (token, rest) =>
      if tok token then some { token := token, date := parseDateParen (trimLeft rest) }
      else none
    | none => none
  | _ => none

/-- Go `strings.Join(lines, "\n")`. -/
def joinLines : List GoString → GoString
  | [] => []
  | [l] => l
  | l :: l2 :: ls => l ++ 10 :: joinLines (l2 :: ls)

/-- A line holding nothing but white space. -/
def isBlankLine (l : GoString) : Bool := TrimSpace l = []

/-- Modelled from the spec: drop the blank lines at both ends of a block of lines. -/
def trimBlankLines (ls : List GoString) : List GoString :=
  ((ls.dropWhile isBlankLine).reverse.dropWhile isBlankLine).reverse

/-- Modelled from the spec: the linear search for the first header whose token equals the
requested version; gives the header and the lines after it. -/
def findSection (tok : GoString → Bool) (version : GoString) :
    List GoString → Option (Header × List GoString)
  | [] => none
  | l :: ls =>
    match parseHeader tok l with
    | some hd => if hd.token = version then some (hd, ls) else findSection tok version ls
    | none => findSection tok version ls

/-- Modelled from the spec: the lines of a section body, from the line after the header up
to, and excluding, the next header line of any depth. -/
def sectionBody (tok : GoString → Bool) (after : List GoString) : List GoString :=
  after.takeWhile (fun l => (parseHeader tok l).isNone)

/-- Modelled from the spec: `parseSpecificVersionFromFile`, the function of the missing
file `pkg/changelog/releaseit/adapter.go`, applied to the text `content` of the changelog
file at `changelogPath`. -/
def parseSpecificVersionFromFile (tok : GoString → Bool) (content changelogPath
    version : GoString) : Except GoString ParsedEntry :=
  match findSection tok version (splitLines content) with
  | some (hd, after) =>
    .ok {
      Version := hd.token
      Date := hd.date
      Description := joinLines (trimBlankLines (sectionBody tok after)) }
  | none => .error (utf8 "未在 " ++ changelogPath ++ utf8 " 中找到版本 " ++ version)

/-- Modelled from the spec: `findLatestVersionInFile`, the function of the missing file
`pkg/changelog/releaseit/adapter.go`, applied to the text of the changelog file: the token
of the first header line, `none` when the text has no header. -/
def findLatestVersionInFile (tok : GoString → Bool) (content : GoString) : Option GoString :=
  ((splitLines content).findSome? (parseHeader tok)).map Header.token

/-- The token class used with the test data: a token that begins with a decimal digit. -/
def startsWithDigit (token : GoString) : Bool :=
  match token with
  | c :: _ => isDigit c
  | [] => false

/-- The changelog of the tests (`testChangelogContent` in `adapter_test.go`), line by line. -/
def testChangelogLines : List String := [
  "",
  "# 更新日志",
  "",
  "所有此项目的显著更改都将记录在此文件中。",
  "",
  "格式基于 [Keep a Changelog](https://keepachangelog.com/zh-CN/1.0.0/)，",
  "并且此项目遵循 [Semantic Versioning](https://semver.org/lang/zh-CN/)。",
  "",
  "## [1.0.1](https://github.com/ZephyrDeng/spreadsheet-mcp/compare/v1.0.0...v1.0.1) (2025-04-22)",
  "",
  "",
  "### Bug Fixes",
  "",
  "* remove JSON formatting for output in server tool ([a08afaa](https://github.com/ZephyrDeng/spreadsheet-mcp/commit/a08afaa5ed7962ee3f0e0db5747fcd9714ffee98))",
  "",
  "# [1.0.0](https://github.com/ZephyrDeng/spreadsheet-mcp/compare/v0.1.2...v1.0.0) (2025-04-22)",
  "",
  "",
  "### Bug Fixes",
  "",
  "* Change output to JSON, fix tests, update docs ([5553045](https://github.com/ZephyrDeng/spreadsheet-mcp/commit/5553045ebe8cb0ca0aba7b5b75b53cb8e5a91116))",
  "",
  "",
  "### Features",
  "",
  "* **spreadsheet:** Change spreadsheet tool output format to JSON array ([20fe9a6](https://github.com/ZephyrDeng/spreadsheet-mcp/commit/20fe9a6ad97e1ffd11027edfe20a95aaa2a1d657))",
  "",
  "",
  "### BREAKING CHANGES",
  "",
  "* **spreadsheet:** The output format of view_spreadsheet, filter_spreadsheet, and sort_spreadsheet tools has changed from a Markdown string to a JSON string. Clients relying on the old format need to be updated.",
  "",
  "## [0.1.2](https://github.com/ZephyrDeng/spreadsheet-mcp/compare/v0.1.1...v0.1.2) (2025-04-17)",
  "",
  "",
  "### Bug Fixes",
  "",
  "* Resolve TS errors and enhance spreadsheet cell parsing ([1197cbf](https://github.com/ZephyrDeng/spreadsheet-mcp/commit/1197cbf545b5d0c0a90e18e96f35a9f3dfe8d5b5))",
  "",
  "## 0.1.1 (2025-04-16)",
  "",
  "",
  "# 0.1.0 (2025-04-15)",
  "",
  "",
  "### Features",
  "",
  "* Allow view_spreadsheet to preview up to max rows ([8b93043](https://github.com/ZephyrDeng/spreadsheet-mcp/commit/8b93043a4a17b27272b9a13dc58e45ad77c31470))",
  "* initialize project with TypeScript, core scripts, and spreadsheet utilities ([b167527](https://github.com/ZephyrDeng/spreadsheet-mcp/commit/b16752706c92b5cfd7b6d2b95693eda299103867))",
  "* setup project for npm publishing with ci and release automation ([5f7f423](https://github.com/ZephyrDeng/spreadsheet-mcp/commit/5f7f4236b70d40071d7ee367ebc19f4bfeba2317))",
  ""
]

/-- Source `testChangelogContent`. -/
def testChangelogContent : GoString := joinLines (testChangelogLines.map utf8)

/-! ## Worlds for worked examples -/

/-- A stand-in for `time.Parse(time.RFC3339, _)` in the worked examples: it reads the
calendar date of a timestamp of the shape `YYYY-MM-DDT...`. -/
def exampleParseRFC3339 (s : GoString) : Option GoTime :=
  match s with
  | y1 :: y2 :: y3 :: y4 :: 45 :: m1 :: m2 :: 45 :: d1 :: d2 :: 84 :: _ =>
    if [y1, y2, y3, y4, m1, m2, d1, d2].all isDigit then
      let v := fun (c : UInt8) => c.toNat - 48
      some {
        year := v y1 * 1000 + v y2 * 100 + v y3 * 10 + v y4
        month := v m1 * 10 + v m2
        day := v d1 * 10 + v d2 }
    else none
  | _ => none

/-- A world for worked examples: the outcome of a command depends on its command line
only, the files are fixed, and paths are Unix paths. -/
def exampleWorld (cmds : GoString → List GoString → Outcome)
    (files : GoString → Except GoString GoString) : World where
  exec := fun _ _ name args => cmds name args
  readFile := fun _ path => files path
  parseRFC3339 := exampleParseRFC3339
  filepathBase := fun path => (path.reverse.takeWhile (fun c => c != 47)).reverse
  filepathJoin := fun dir file => dir ++ utf8 "/" ++ file

/-- A repository in which the requested tag does not exist: only the `git-chglog`
version probe succeeds, every other command fails, and there is no README. -/
def missingTagWorld : World :=
  exampleWorld
    (fun name args =>
      if name = utf8 "git-chglog" ∧ args = [utf8 "--version"] then
        .ok (utf8 "git-chglog version 0.15.4\n")
      else .fail (utf8 "exit status 128") (utf8 "fatal: bad revision\n"))
    (fun _ => .error (utf8 "open /repo/README.md: no such file or directory"))

/-- A repository whose only tag is `v1.0.0`: there is no earlier tag, the commit of the
tag has a diff of 5001 bytes and touches one file, and the README is a single line of
2001 bytes. -/
def firstTagWorld : World :=
  exampleWorld
    (fun name args =>
      if name = utf8 "git-chglog" then
        if args = [utf8 "--version"] then .ok (utf8 "git-chglog version 0.15.4\n")
        else if args = [utf8 "v1.0.0"] then .ok (utf8 "## v1.0.0\n\n* first release\n")
        else .fail (utf8 "exit status 1") []
      else if args = [utf8 "describe", utf8 "--tags", utf8 "--abbrev=0"] then
        .ok (utf8 "v1.0.0\n")
      else if args = [utf8 "show", utf8 "-s", utf8 "--format=%cI", utf8 "v1.0.0"] then
        .ok (utf8 "2025-04-22T10:00:00+08:00\n")
      else if args = [utf8 "show", utf8 "v1.0.0"] then .ok (List.replicate 5001 97)
      else if args = [utf8 "show", utf8 "--name-status", utf8 "v1.0.0"] then
        .ok (utf8 "A\tmain.go\n")
      else .fail (utf8 "exit status 128") (utf8 "fatal: bad revision\n"))
    (fun path =>
      if path = utf8 "/repo/README.md" then .ok (List.replicate 2001 97)
      else .error (utf8 "no such file or directory"))

/-- A repository whose only tag is `v1.0.0`, with a diff of 5001 bytes for its commit, in
which the name-and-status listing cannot be produced: `git show --name-status` fails. -/
def listingFailsWorld : World :=
  exampleWorld
    (fun name args =>
      if name = utf8 "git-chglog" then
        if args = [utf8 "--version"] then .ok (utf8 "git-chglog version 0.15.4\n")
        else .fail (utf8 "exit status 1") []
      else if args = [utf8 "show", utf8 "v1.0.0"] then .ok (List.replicate 5001 97)
      else .fail (utf8 "exit status 128") (utf8 "fatal: unable to list\n"))
    (fun _ => .error (utf8 "open /repo/README.md: no such file or directory"))

/-- Go `strings.Repeat(s, n)`. -/
def Repeat (s : GoString) : Nat → GoString
  | 0 => []
  | n + 1 => s ++ Repeat s n

/-- The number of characters (Unicode code points) of a well-formed UTF-8 text: the bytes
that are not continuation bytes `10xxxxxx`. -/
def charCount (s : GoString) : Nat :=
  (s.filter (fun b => b &&& 0xC0 != 0x80)).length

/-- A repository whose only tag is `v1.0.0`, with the given full diff and
name-and-status listing for the commit of the tag and the given README. -/
def sampleWorld (diff listing readme : GoString) : World :=
  exampleWorld
    (fun name args =>
      if name = utf8 "git-chglog" then
        if args = [utf8 "--version"] then .ok (utf8 "git-chglog version 0.15.4\n")
        else if args = [utf8 "v1.0.0"] then .ok (utf8 "## v1.0.0\n\n* first release\n")
        else .fail (utf8 "exit status 1") []
      else if args = [utf8 "show", utf8 "-s", utf8 "--format=%cI", utf8 "v1.0.0"] then
        .ok (utf8 "2025-04-22T10:00:00+08:00\n")
      else if args = [utf8 "show", utf8 "v1.0.0"] then .ok diff
      else if args = [utf8 "show", utf8 "--name-status", utf8 "v1.0.0"] then .ok listing
      else .fail (utf8 "exit status 128") (utf8 "fatal: bad revision\n"))
    (fun path =>
      if path = utf8 "/repo/README.md" then .ok readme
      else .error (utf8 "no such file or directory"))

/-- A README of 100 lines: 20 times two padded lines of text, each followed by blank or
white-space-only lines. -/
def paddedReadme : GoString :=
  Repeat (utf8 "  alpha: the first kind of line, padded on both sides \t\n\n\tbeta: the second kind of line, padded as well  \r\n   \n\n") 20

/-- A machine on which `git-chglog` is installed, asked about a repository directory that
does not exist: starting any command there fails on the directory. -/
def missingDirWorld : World :=
  exampleWorld
    (fun _ _ => .fail (utf8 "chdir /no/such/repo: no such file or directory") [])
    (fun _ => .error (utf8 "open /no/such/repo/README.md: no such file or directory"))

/-! ## Theorems -/

theorem Outcome.eq_fail_of_failed (o : Outcome) (h : o.failed = true) :
    ∃ m s, o = .fail m s := by
  cases o with
  | ok out => simp [Outcome.failed] at h
  | fail m s => exact ⟨m, s, rfl⟩

theorem eq_ok_of_toOption {ε α : Type} (x : Except ε α) (a : α)
    (h : x.toOption = some a) : x = .ok a := by
  cases x with
  | error err => simp [Except.toOption] at h
  | ok b =>
    simp [Except.toOption] at h
    rw [h]

theorem checkGitChglogExists_ok (w : World) (log : List Event) (repoPath : GoString)
    (h : (w.exec log repoPath (utf8 "git-chglog") [utf8 "--version"]).failed = false) :
    checkGitChglogExists w log repoPath =
      (none, log ++ [Event.run repoPath (utf8 "git-chglog") [utf8 "--version"]]) := by
  unfold checkGitChglogExists World.run
  cases hp : w.exec log repoPath (utf8 "git-chglog") [utf8 "--version"] with
  | ok out => rfl
  | fail m s => simp [hp, Outcome.failed] at h

/-- After a successful probe `GetVersionEntry` is the sequence of its five steps. -/
theorem GetVersionEntry_ok (w : World) (log : List Event) (repoPath version : GoString)
    (h : (w.exec log repoPath (utf8 "git-chglog") [utf8 "--version"]).failed = false) :
    GetVersionEntry w log repoPath version =
      let log0 := log ++ [Event.run repoPath (utf8 "git-chglog") [utf8 "--version"]]
      let r1 := resolvePrevTag w log0 repoPath version
      let r2 := generateChangelog w r1.2 repoPath version r1.1.2
      let r3 := tagDate w r2.2 repoPath version
      let r4 := codeDiffStep w r3.2 repoPath version r1.1.1
      let r5 := readmeStep w r4.2 repoPath
      (.ok {
        ProjectName := w.filepathBase repoPath
        Version := version
        Date := r3.1
        Description := r2.1
        CodeDiff := r4.1
        Readme := r5.1
        SourceAdapter := utf8 "git-chglog" }, r5.2) := by
  unfold GetVersionEntry
  rw [checkGitChglogExists_ok w log repoPath h]

theorem generateChangelog_failed (w : World) (l : List Event)
    (repoPath version tagRange : GoString)
    (h1 : (w.exec l repoPath (utf8 "git-chglog") [tagRange]).failed = true)
    (h2 : (w.exec (l ++ [Event.run repoPath (utf8 "git-chglog") [tagRange]]) repoPath
      (utf8 "git-chglog") [utf8 "--output", version]).failed = true) :
    (generateChangelog w l repoPath version tagRange).1 = changelogPlaceholder := by
  obtain ⟨m1, s1, e1⟩ := Outcome.eq_fail_of_failed _ h1
  obtain ⟨m2, s2, e2⟩ := Outcome.eq_fail_of_failed _ h2
  unfold generateChangelog World.run
  simp only [e1, e2]

theorem tagDate_empty (w : World) (l : List Event) (repoPath version : GoString)
    (h : ∀ out, w.exec l repoPath (utf8 "git")
        [utf8 "show", utf8 "-s", utf8 "--format=%cI", version] = .ok out →
      w.parseRFC3339 (TrimSpace out) = none) :
    (tagDate w l repoPath version).1 = [] := by
  unfold tagDate World.run
  cases e1 : w.exec l repoPath (utf8 "git")
      [utf8 "show", utf8 "-s", utf8 "--format=%cI", version] with
  | ok out => simp only [h out e1]
  | fail m s => rfl

theorem codeDiffStep_failed (w : World) (l : List Event) (repoPath version prevTag : GoString)
    (h : (w.exec l repoPath (utf8 "git")
      (if prevTag ≠ [] then [utf8 "diff", prevTag, version] else [utf8 "show", version])).failed
        = true) :
    (codeDiffStep w l repoPath version prevTag).1 = diffPlaceholder := by
  obtain ⟨m1, s1, e1⟩ := Outcome.eq_fail_of_failed _ h
  unfold codeDiffStep World.run
  simp only [e1]

theorem readmeStep_failed (w : World) (l : List Event) (repoPath : GoString)
    (h : ∃ err, w.readFile l (w.filepathJoin repoPath (utf8 "README.md")) = .error err) :
    (readmeStep w l repoPath).1 = readmePlaceholder := by
  obtain ⟨err, h⟩ := h
  unfold readmeStep World.read
  simp only [h]

theorem resolvePrevTag_log (w : World) (l : List Event) (repoPath version : GoString) :
    (resolvePrevTag w l repoPath version).2 = l ++ [Event.run repoPath (utf8 "git")
      [utf8 "describe", utf8 "--tags", utf8 "--abbrev=0", version ++ utf8 "^"]] := by
  unfold resolvePrevTag World.run
  split <;> simp_all

theorem resolvePrevTag_eq (w : World) (l : List Event) (repoPath version : GoString) :
    (resolvePrevTag w l repoPath version).1 =
      match w.exec l repoPath (utf8 "git")
          [utf8 "describe", utf8 "--tags", utf8 "--abbrev=0", version ++ utf8 "^"] with
      | .ok out => (TrimSpace out, TrimSpace out ++ utf8 ".." ++ version)
      | .fail _ _ => ([], version) := by
  unfold resolvePrevTag World.run
  cases w.exec l repoPath (utf8 "git")
      [utf8 "describe", utf8 "--tags", utf8 "--abbrev=0", version ++ utf8 "^"] <;> rfl

/-- C1: once the `git-chglog --version` probe has succeeded, `GetVersionEntry` returns an
entry and no error, whatever the later commands and the README read answer. Let `prevTag`
and `tagRange` be what the `git describe` step gives (the trimmed output and
`prevTag..version`, or the empty string and `version` when it fails). In the entry,
Description is the placeholder '无法生成 Changelog 内容。' when both generation invocations
fail: `git-chglog tagRange`, run right after `git describe`, and then
`git-chglog --output version`; Date is empty when the date command fails or its output
does not parse; CodeDiff is the placeholder '无法获取代码变更。' when the primary command
(`git diff prevTag version`, or `git show version` when `prevTag` is empty) fails; Readme
is the placeholder '无法读取 README 内容。' when README.md cannot be read. -/
theorem getVersionEntry_degrades (w : World) (log : List Event) (repoPath version : GoString)
    (hprobe : (w.exec log repoPath (utf8 "git-chglog") [utf8 "--version"]).failed = false) :
    ∃ e, (GetVersionEntry w log repoPath version).1 = .ok e ∧
      (∀ prevTag tagRange : GoString,
        (prevTag, tagRange) =
          (match w.exec (log ++ [Event.run repoPath (utf8 "git-chglog") [utf8 "--version"]])
              repoPath (utf8 "git")
              [utf8 "describe", utf8 "--tags", utf8 "--abbrev=0", version ++ utf8 "^"] with
            | .ok out => (TrimSpace out, TrimSpace out ++ utf8 ".." ++ version)
            | .fail _ _ => ([], version)) →
        ((w.exec
            (log ++ [Event.run repoPath (utf8 "git-chglog") [utf8 "--version"]] ++
              [Event.run repoPath (utf8 "git")
                [utf8 "describe", utf8 "--tags", utf8 "--abbrev=0", version ++ utf8 "^"]])
            repoPath (utf8 "git-chglog") [tagRange]).failed = true →
          (w.exec
            (log ++ [Event.run repoPath (utf8 "git-chglog") [utf8 "--version"]] ++
              [Event.run repoPath (utf8 "git")
                [utf8 "describe", utf8 "--tags", utf8 "--abbrev=0", version ++ utf8 "^"]] ++
              [Event.run repoPath (utf8 "git-chglog") [tagRange]])
            repoPath (utf8 "git-chglog") [utf8 "--output", version]).failed = true →
          e.Description = utf8 "无法生成 Changelog 内容。") ∧
        ((∀ h, (w.exec h repoPath (utf8 "git")
            (if prevTag ≠ [] then [utf8 "diff", prevTag, version]
              else [utf8 "show", version])).failed = true) →
          e.CodeDiff = utf8 "无法获取代码变更。")) ∧
      ((∀ h out, w.exec h repoPath (utf8 "git")
            [utf8 "show", utf8 "-s", utf8 "--format=%cI", version] = .ok out →
          w.parseRFC3339 (TrimSpace out) = none) →
        e.Date = []) ∧
      ((∀ h, ∃ err, w.readFile h (w.filepathJoin repoPath (utf8 "README.md")) = .error err) →
        e.Readme = utf8 "无法读取 README 内容。") := by
  rw [GetVersionEntry_ok w log repoPath version hprobe]
  refine ⟨_, rfl, ?_, ?_, ?_⟩
  · intro prevTag tagRange hpair
    rw [← resolvePrevTag_eq] at hpair
    have h1 : (resolvePrevTag w (log ++ [Event.run repoPath (utf8 "git-chglog")
        [utf8 "--version"]]) repoPath version).1.1 = prevTag := by rw [← hpair]
    have h2 : (resolvePrevTag w (log ++ [Event.run repoPath (utf8 "git-chglog")
        [utf8 "--version"]]) repoPath version).1.2 = tagRange := by rw [← hpair]
    simp only [h1, h2, resolvePrevTag_log]
    constructor
    · intro hg1 hg2
      exact generateChangelog_failed _ _ _ _ _ hg1 hg2
    · intro hdiff
      exact codeDiffStep_failed _ _ _ _ _ (hdiff _)
  · intro hdate
    exact tagDate_empty _ _ _ _ (hdate _)
  · intro hread
    exact readmeStep_failed _ _ _ (hread _)

theorem git_ne_git_chglog : utf8 "git" ≠ utf8 "git-chglog" := by decide

/-- C1, witness: a repository in which the requested tag does not exist. The probe
succeeds, `git describe` fails, both generation invocations, the date command and
`git show` fail and there is no README: the call returns the fully degraded entry. -/
theorem getVersionEntry_degrades_witness :
    (missingTagWorld.exec [] (utf8 "/repo") (utf8 "git-chglog") [utf8 "--version"]).failed
      = false ∧
    ∃ e, (GetVersionEntry missingTagWorld [] (utf8 "/repo") (utf8 "v9.9.9")).1 = .ok e ∧
      e.Description = utf8 "无法生成 Changelog 内容。" ∧ e.Date = [] ∧
      e.CodeDiff = utf8 "无法获取代码变更。" ∧ e.Readme = utf8 "无法读取 README 内容。" := by
  refine ⟨by decide, ?_⟩
  obtain ⟨e, he, h1, h2, h3⟩ :=
    getVersionEntry_degrades missingTagWorld [] (utf8 "/repo") (utf8 "v9.9.9") (by decide)
  obtain ⟨hdesc, hdiff⟩ := h1 [] (utf8 "v9.9.9") rfl
  refine ⟨e, he, hdesc (by decide) (by decide), h2 ?_, hdiff (fun _ => rfl), h3 ?_⟩
  · intro h out hout
    simp [missingTagWorld, exampleWorld, git_ne_git_chglog] at hout
  · intro h
    exact ⟨_, rfl⟩

/-- C2, counterexample: the tag `v9.9.9` does not exist, every `git` command fails, and
yet `GetVersionEntry` returns an entry instead of a TagNotFound error. -/
theorem getVersionEntry_missing_tag_returns_entry :
    (∀ h a, (missingTagWorld.exec h (utf8 "/repo") (utf8 "git") a).failed = true) ∧
    (GetVersionEntry missingTagWorld [] (utf8 "/repo") (utf8 "v9.9.9")).1 =
      .ok {
        ProjectName := utf8 "repo"
        Version := utf8 "v9.9.9"
        Date := []
        Description := utf8 "无法生成 Changelog 内容。"
        CodeDiff := utf8 "无法获取代码变更。"
        Readme := utf8 "无法读取 README 内容。"
        SourceAdapter := utf8 "git-chglog" } := by
  constructor
  · intro h a
    simp [missingTagWorld, exampleWorld, Outcome.failed, git_ne_git_chglog]
  · rfl

/-- C2, amended: `GetVersionEntry` has no TagNotFound failure. When every `git` command
that names the requested version fails (no tag matches it) and the probe has succeeded,
the call returns an entry for that version, with an empty Date and the placeholder
'无法获取代码变更。' as CodeDiff, and no error. -/
theorem getVersionEntry_missing_tag (w : World) (log : List Event)
    (repoPath version : GoString)
    (hprobe : (w.exec log repoPath (utf8 "git-chglog") [utf8 "--version"]).failed = false)
    (hgit : ∀ h a, (version ∈ a ∨ version ++ utf8 "^" ∈ a) →
      (w.exec h repoPath (utf8 "git") a).failed = true) :
    ∃ e, (GetVersionEntry w log repoPath version).1 = .ok e ∧
      e.Version = version ∧ e.Date = [] ∧ e.CodeDiff = utf8 "无法获取代码变更。" := by
  rw [GetVersionEntry_ok w log repoPath version hprobe]
  refine ⟨_, rfl, rfl, ?_, ?_⟩
  · apply tagDate_empty
    intro out hout
    have hf : (Outcome.ok out).failed = true := by
      rw [← hout]
      exact hgit _ _ (by simp)
    exact absurd hf (by simp [Outcome.failed])
  · apply codeDiffStep_failed
    apply hgit
    split <;> simp

/-- C2, witness of the amended statement. -/
theorem getVersionEntry_missing_tag_witness :
    ∃ e, (GetVersionEntry missingTagWorld [] (utf8 "/repo") (utf8 "v9.9.9")).1 = .ok e ∧
      e.Version = utf8 "v9.9.9" ∧ e.Date = [] ∧ e.CodeDiff = utf8 "无法获取代码变更。" :=
  getVersionEntry_missing_tag missingTagWorld [] (utf8 "/repo") (utf8 "v9.9.9") (by decide)
    (by
      intro h a _
      simp [missingTagWorld, exampleWorld, Outcome.failed, git_ne_git_chglog])


/-! ### The static changelog parser -/

theorem findSection_some (tok : GoString → Bool) (version : GoString) (ls : List GoString)
    (h : ∃ l ∈ ls, ∃ hd, parseHeader tok l = some hd ∧ hd.token = version) :
    ∃ pre hl hd after, findSection tok version ls = some (hd, after) ∧
      ls = pre ++ hl :: after ∧ parseHeader tok hl = some hd ∧ hd.token = version ∧
      ∀ l ∈ pre, ∀ hd', parseHeader tok l = some hd' → hd'.token ≠ version := by
  induction ls with
  | nil => simp at h
  | cons l ls ih =>
    unfold findSection
    cases hp : parseHeader tok l with
    | none =>
      have h' : ∃ l ∈ ls, ∃ hd, parseHeader tok l = some hd ∧ hd.token = version := by
        obtain ⟨l', hl', hd, hhd, htok⟩ := h
        rcases List.mem_cons.mp hl' with rfl | hmem
        · rw [hp] at hhd; cases hhd
        · exact ⟨l', hmem, hd, hhd, htok⟩
      obtain ⟨pre, hl, hd, after, hfind, hsplit, hhd, htok, hpre⟩ := ih h'
      refine ⟨l :: pre, hl, hd, after, hfind, by simp [hsplit], hhd, htok, ?_⟩
      intro x hx hd' hx'
      rcases List.mem_cons.mp hx with rfl | hmem
      · rw [hp] at hx'; cases hx'
      · exact hpre x hmem hd' hx'
    | some hd0 =>
      by_cases heq : hd0.token = version
      · exact ⟨[], l, hd0, ls, by simp [heq], rfl, hp, heq, by simp⟩
      · have h' : ∃ l ∈ ls, ∃ hd, parseHeader tok l = some hd ∧ hd.token = version := by
          obtain ⟨l', hl', hd, hhd, htok⟩ := h
          rcases List.mem_cons.mp hl' with rfl | hmem
          · rw [hp] at hhd; cases hhd; exact absurd htok heq
          · exact ⟨l', hmem, hd, hhd, htok⟩
        obtain ⟨pre, hl, hd, after, hfind, hsplit, hhd, htok, hpre⟩ := ih h'
        refine ⟨l :: pre, hl, hd, after, by simp [heq, hfind], by simp [hsplit], hhd, htok, ?_⟩
        intro x hx hd' hx'
        rcases List.mem_cons.mp hx with rfl | hmem
        · rw [hp] at hx'; cases hx'; exact heq
        · exact hpre x hmem hd' hx'

theorem sectionBody_split (tok : GoString → Bool) (after : List GoString) :
    ∃ rest, after = sectionBody tok after ++ rest ∧
      (∀ l ∈ sectionBody tok after, parseHeader tok l = none) ∧
      (rest = [] ∨ ∃ h2 rest2, rest = h2 :: rest2 ∧ (parseHeader tok h2).isSome = true) := by
  refine ⟨after.dropWhile (fun l => (parseHeader tok l).isNone), ?_, ?_, ?_⟩
  · exact (List.takeWhile_append_dropWhile _ after).symm
  · intro l hl
    have := List.mem_takeWhile_imp hl
    simpa using this
  · cases hr : after.dropWhile (fun l => (parseHeader tok l).isNone) with
    | nil => exact Or.inl rfl
    | cons h2 rest2 =>
      refine Or.inr ⟨h2, rest2, rfl, ?_⟩
      have := List.head?_dropWhile_not (fun l => (parseHeader tok l).isNone) after
      rw [hr] at this
      simp at this
      cases hh : parseHeader tok h2 with
      | none => simp [hh] at this
      | some x => rfl

theorem trimBlankLines_split (ls : List GoString) :
    ∃ lead trail, ls = lead ++ trimBlankLines ls ++ trail ∧
      (∀ l ∈ lead, TrimSpace l = []) ∧ (∀ l ∈ trail, TrimSpace l = []) ∧
      (∀ l, (trimBlankLines ls).head? = some l → TrimSpace l ≠ []) ∧
      (∀ l, (trimBlankLines ls).getLast? = some l → TrimSpace l ≠ []) := by
  have hm : ls.dropWhile isBlankLine =
      trimBlankLines ls ++ ((ls.dropWhile isBlankLine).reverse.takeWhile isBlankLine).reverse := by
    unfold trimBlankLines
    rw [← List.reverse_append, List.takeWhile_append_dropWhile, List.reverse_reverse]
  refine ⟨ls.takeWhile isBlankLine,
    ((ls.dropWhile isBlankLine).reverse.takeWhile isBlankLine).reverse, ?_, ?_, ?_, ?_, ?_⟩
  · rw [List.append_assoc, ← hm, List.takeWhile_append_dropWhile]
  · intro l hl
    simpa [isBlankLine] using List.mem_takeWhile_imp hl
  · intro l hl
    simpa [isBlankLine] using List.mem_takeWhile_imp (List.mem_reverse.mp hl)
  · intro l hl
    have hnot := List.head?_dropWhile_not isBlankLine ls
    rw [hm] at hnot
    cases ht : trimBlankLines ls with
    | nil => rw [ht] at hl; simp at hl
    | cons x xs =>
      rw [ht] at hl hnot
      simp at hl hnot
      subst hl
      simpa [isBlankLine] using hnot
  · intro l hl
    have hnot := List.head?_dropWhile_not isBlankLine (ls.dropWhile isBlankLine).reverse
    have hrev : (trimBlankLines ls).reverse =
        (ls.dropWhile isBlankLine).reverse.dropWhile isBlankLine := by
      unfold trimBlankLines
      rw [List.reverse_reverse]
    rw [← hrev, List.head?_reverse, hl] at hnot
    simpa [isBlankLine] using hnot

theorem trimBlankLines_eq_nil (ls : List GoString) (h : ∀ l ∈ ls, TrimSpace l = []) :
    trimBlankLines ls = [] := by
  unfold trimBlankLines
  have : ls.dropWhile isBlankLine = [] := by
    rw [List.dropWhile_eq_nil_iff]
    intro x hx
    simp [isBlankLine, h x hx]
  rw [this]
  rfl

theorem mem_of_mem_trimBlankLines (ls : List GoString) (l : GoString)
    (h : l ∈ trimBlankLines ls) : l ∈ ls := by
  obtain ⟨lead, trail, hsplit, -⟩ := trimBlankLines_split ls
  rw [hsplit]
  simp [h]

theorem splitLines_ne_nil (s : GoString) : splitLines s ≠ [] := by
  induction s with
  | nil => simp [splitLines]
  | cons c cs ih =>
    unfold splitLines
    split
    · simp
    · split <;> simp

theorem not_mem_newline_of_mem_splitLines (s : GoString) :
    ∀ l ∈ splitLines s, (10 : UInt8) ∉ l := by
  induction s with
  | nil => simp [splitLines]
  | cons c cs ih =>
    unfold splitLines
    split
    · intro l hl
      rcases List.mem_cons.mp hl with rfl | hmem
      · simp
      · exact ih l hmem
    · rename_i hc
      split
      · rename_i heq
        exact absurd heq (splitLines_ne_nil cs)
      · rename_i l0 ls heq
        intro l hl
        rw [heq] at ih
        rcases List.mem_cons.mp hl with rfl | hmem
        · have := ih l0 (by simp)
          simp [this, Ne.symm hc]
        · exact ih l (by simp [hmem])

theorem splitLines_append_newline (l : GoString) (h : (10 : UInt8) ∉ l) (s : GoString) :
    splitLines (l ++ 10 :: s) = l :: splitLines s := by
  induction l with
  | nil => simp [splitLines]
  | cons c cs ih =>
    have hc : c ≠ 10 := by
      intro hc; apply h; simp [hc]
    have hcs : (10 : UInt8) ∉ cs := by
      intro hcs; apply h; simp [hcs]
    rw [List.cons_append, splitLines, if_neg hc, ih hcs]

theorem splitLines_of_no_newline (l : GoString) (h : (10 : UInt8) ∉ l) :
    splitLines l = [l] := by
  induction l with
  | nil => rfl
  | cons c cs ih =>
    have hc : c ≠ 10 := by
      intro hc; apply h; simp [hc]
    have hcs : (10 : UInt8) ∉ cs := by
      intro hcs; apply h; simp [hcs]
    rw [splitLines, if_neg hc, ih hcs]

theorem splitLines_joinLines (ls : List GoString) (hne : ls ≠ [])
    (h : ∀ l ∈ ls, (10 : UInt8) ∉ l) : splitLines (joinLines ls) = ls := by
  induction ls with
  | nil => exact absurd rfl hne
  | cons l ls ih =>
    cases ls with
    | nil => simpa [joinLines] using splitLines_of_no_newline l (h l (by simp))
    | cons l2 ls2 =>
      rw [joinLines, splitLines_append_newline l (h l (by simp)),
        ih (by simp) (fun x hx => h x (by simp [hx]))]


/-- C3: for every changelog text and every version that has a version header in it,
`parseSpecificVersionFromFile` succeeds with that Version (and the Date of the header). The
lines of the text are `pre ++ hl :: body ++ rest`, where `hl` is the first header whose
token is the version, `body` holds no header line and `rest` is empty or starts with the
next header line (of any depth); the Description is `body` without the blank lines at its
two ends, joined by newlines. No line of the Description is a header line, so neither the
matched header line nor the next header line is among its lines, and the Description is
empty when `body` has only blank lines. -/
theorem parseSpecificVersion_section (tok : GoString → Bool)
    (content changelogPath version : GoString)
    (hhas : ∃ l ∈ splitLines content, ∃ hd, parseHeader tok l = some hd ∧ hd.token = version) :
    ∃ e pre hl hd body rest lead desc trail,
      parseSpecificVersionFromFile tok content changelogPath version = .ok e ∧
      e.Version = version ∧ e.Date = hd.date ∧
      splitLines content = pre ++ hl :: (body ++ rest) ∧
      (∀ l ∈ pre, ∀ hd', parseHeader tok l = some hd' → hd'.token ≠ version) ∧
      parseHeader tok hl = some hd ∧ hd.token = version ∧
      (∀ l ∈ body, parseHeader tok l = none) ∧
      (∀ h2, rest.head? = some h2 → (parseHeader tok h2).isSome = true) ∧
      body = lead ++ desc ++ trail ∧
      (∀ l ∈ lead, TrimSpace l = []) ∧ (∀ l ∈ trail, TrimSpace l = []) ∧
      (∀ l, desc.head? = some l → TrimSpace l ≠ []) ∧
      (∀ l, desc.getLast? = some l → TrimSpace l ≠ []) ∧
      e.Description = joinLines desc ∧
      (∀ l ∈ splitLines e.Description, parseHeader tok l = none) ∧
      hl ∉ splitLines e.Description ∧
      (∀ h2, rest.head? = some h2 → h2 ∉ splitLines e.Description) ∧
      ((∀ l ∈ body, TrimSpace l = []) → e.Description = []) := by
  obtain ⟨pre, hl, hd, after, hfind, hsplit, hhd, htok, hpre⟩ :=
    findSection_some tok version (splitLines content) hhas
  obtain ⟨rest, hafter, hbody, hrest⟩ := sectionBody_split tok after
  obtain ⟨lead, trail, htrim, hlead, htrail, hfirst, hlast⟩ :=
    trimBlankLines_split (sectionBody tok after)
  have hnext : ∀ h2, rest.head? = some h2 → (parseHeader tok h2).isSome = true := by
    intro h2 hh2
    rcases hrest with rfl | ⟨h2', rest2, rfl, hsome⟩
    · simp at hh2
    · simp at hh2; subst hh2; exact hsome
  have hdesc : ∀ l ∈ splitLines (joinLines (trimBlankLines (sectionBody tok after))),
      parseHeader tok l = none := by
    intro l hl'
    by_cases hnil : trimBlankLines (sectionBody tok after) = []
    · rw [hnil] at hl'
      simp [joinLines, splitLines] at hl'
      subst hl'
      rfl
    · rw [splitLines_joinLines _ hnil] at hl'
      · exact hbody l (mem_of_mem_trimBlankLines _ l hl')
      · intro x hx
        apply not_mem_newline_of_mem_splitLines content
        rw [hsplit, hafter]
        have := mem_of_mem_trimBlankLines _ x hx
        simp [this]
  refine ⟨ParsedEntry.mk hd.token hd.date
      (joinLines (trimBlankLines (sectionBody tok after))),
    pre, hl, hd, sectionBody tok after, rest, lead, trimBlankLines (sectionBody tok after),
    trail, ?_, htok, rfl, ?_, hpre, hhd, htok, hbody, hnext, htrim, hlead, htrail, hfirst,
    hlast, rfl, hdesc, ?_, ?_, ?_⟩
  · unfold parseSpecificVersionFromFile
    rw [hfind]
  · rw [hsplit, ← hafter]
  · intro hmem
    have := hdesc hl hmem
    rw [hhd] at this
    cases this
  · intro h2 hh2 hmem
    have h1 := hdesc h2 hmem
    have h3 := hnext h2 hh2
    rw [h1] at h3
    cases h3
  · intro hblank
    show joinLines (trimBlankLines (sectionBody tok after)) = []
    rw [trimBlankLines_eq_nil _ hblank]
    rfl

set_option maxRecDepth 100000 in
theorem parseSpecificVersion_test_1_0_1 : parseSpecificVersionFromFile startsWithDigit testChangelogContent
        (utf8 "CHANGELOG.md") (utf8 "1.0.1") =
      .ok {
        Version := utf8 "1.0.1"
        Date := utf8 "2025-04-22"
        Description := utf8 "### Bug Fixes\n\n* remove JSON formatting for output in server tool ([a08afaa](https://github.com/ZephyrDeng/spreadsheet-mcp/commit/a08afaa5ed7962ee3f0e0db5747fcd9714ffee98))" } := by
  rfl

set_option maxRecDepth 100000 in
theorem parseSpecificVersion_test_0_1_1 :
    parseSpecificVersionFromFile startsWithDigit testChangelogContent
        (utf8 "CHANGELOG.md") (utf8 "0.1.1") =
      .ok { Version := utf8 "0.1.1", Date := utf8 "2025-04-16", Description := [] } := by
  rfl

set_option maxRecDepth 100000 in
/-- C3, witness: the two cases of the tests, `TestParseSpecificVersionFromFile_Found` and
`TestParseSpecificVersionFromFile_FoundNoLinkDate`, on the test changelog. -/
theorem parseSpecificVersion_section_witness :
    (∃ l ∈ splitLines testChangelogContent, ∃ hd,
      parseHeader startsWithDigit l = some hd ∧ hd.token = utf8 "1.0.1") ∧
    (∃ e, parseSpecificVersionFromFile startsWithDigit testChangelogContent
        (utf8 "CHANGELOG.md") (utf8 "1.0.1") = .ok e ∧
      e.Version = utf8 "1.0.1" ∧ e.Date = utf8 "2025-04-22" ∧
      Contains e.Description (utf8 "Bug Fixes") = true ∧
      Contains e.Description (utf8 "remove JSON formatting") = true ∧
      Contains e.Description (utf8 "## [1.0.1]") = false ∧
      Contains e.Description (utf8 "# [1.0.0]") = false) ∧
    (∃ e, parseSpecificVersionFromFile startsWithDigit testChangelogContent
        (utf8 "CHANGELOG.md") (utf8 "0.1.1") = .ok e ∧
      e.Version = utf8 "0.1.1" ∧ e.Date = utf8 "2025-04-16" ∧ e.Description = []) := by
  have h1 : ∃ l ∈ splitLines testChangelogContent, ∃ hd,
      parseHeader startsWithDigit l = some hd ∧ hd.token = utf8 "1.0.1" :=
    ⟨utf8 "## [1.0.1](https://github.com/ZephyrDeng/spreadsheet-mcp/compare/v1.0.0...v1.0.1) (2025-04-22)",
      by decide, ⟨utf8 "1.0.1", utf8 "2025-04-22"⟩, by decide, by decide⟩
  have h2 : ∃ l ∈ splitLines testChangelogContent, ∃ hd,
      parseHeader startsWithDigit l = some hd ∧ hd.token = utf8 "0.1.1" :=
    ⟨utf8 "## 0.1.1 (2025-04-16)", by decide, ⟨utf8 "0.1.1", utf8 "2025-04-16"⟩,
      by decide, by decide⟩
  refine ⟨h1, ?_, ?_⟩
  · obtain ⟨e, -, -, -, -, -, -, -, -, he, hv, -⟩ :=
      parseSpecificVersion_section startsWithDigit testChangelogContent
        (utf8 "CHANGELOG.md") (utf8 "1.0.1") h1
    have heq := he.symm.trans parseSpecificVersion_test_1_0_1
    injection heq with heq
    subst heq
    exact ⟨_, he, hv, by decide, by decide, by decide, by decide, by decide⟩
  · obtain ⟨e, -, -, -, -, -, -, -, -, he, hv, -⟩ :=
      parseSpecificVersion_section startsWithDigit testChangelogContent
        (utf8 "CHANGELOG.md") (utf8 "0.1.1") h2
    have heq := he.symm.trans parseSpecificVersion_test_0_1_1
    injection heq with heq
    subst heq
    exact ⟨_, he, hv, by decide, by decide⟩

theorem findSome_first {α β : Type} (f : α → Option β) (ls : List α)
    (h : ∃ l ∈ ls, (f l).isSome = true) :
    ∃ pre hl b rest, ls = pre ++ hl :: rest ∧ (∀ l ∈ pre, f l = none) ∧ f hl = some b ∧
      ls.findSome? f = some b := by
  induction ls with
  | nil => simp at h
  | cons l ls ih =>
    cases hf : f l with
    | some b => exact ⟨[], l, b, ls, rfl, by simp, hf, by simp [List.findSome?, hf]⟩
    | none =>
      have h' : ∃ l ∈ ls, (f l).isSome = true := by
        obtain ⟨x, hx, hsome⟩ := h
        rcases List.mem_cons.mp hx with rfl | hmem
        · rw [hf] at hsome; cases hsome
        · exact ⟨x, hmem, hsome⟩
      obtain ⟨pre, hl, b, rest, hsplit, hpre, hhl, hfind⟩ := ih h'
      refine ⟨l :: pre, hl, b, rest, by simp [hsplit], ?_, hhl, by simp [List.findSome?, hf, hfind]⟩
      intro x hx
      rcases List.mem_cons.mp hx with rfl | hmem
      · exact hf
      · exact hpre x hmem

theorem parseHeader_depth (tok : GoString → Bool) (k : Nat) (s : GoString) :
    parseHeader tok (List.replicate (k + 1) 35 ++ s) = parseHeader tok (35 :: s) := by
  have hdrop : ∀ n : Nat, (List.replicate n (35 : UInt8) ++ s).dropWhile (fun c => c == 35)
      = s.dropWhile (fun c => c == 35) := by
    intro n
    rw [List.dropWhile_append_of_pos]
    intro a ha
    simp [List.eq_of_mem_replicate ha]
  have h1 := hdrop (k + 1)
  have h2 := hdrop 1
  rw [List.replicate_succ, List.cons_append] at h1
  simp only [List.replicate_succ, List.replicate_zero, List.cons_append, List.nil_append] at h2
  rw [List.replicate_succ, List.cons_append]
  unfold parseHeader
  simp only [h1, h2]

/-- C4: for every changelog text with at least one version header,
`findLatestVersionInFile` returns the version token of the first header line of the text:
the lines are `pre ++ hl :: rest` where no line of `pre` is a header and `hl` is one, and
the result is the token of `hl`. Whether a line is a header, and which token it carries,
does not depend on the number of leading `#` (its heading depth). -/
theorem findLatestVersion_first_header (tok : GoString → Bool) (content : GoString)
    (hhas : ∃ l ∈ splitLines content, (parseHeader tok l).isSome = true) :
    (∃ pre hl hd rest, splitLines content = pre ++ hl :: rest ∧
      (∀ l ∈ pre, parseHeader tok l = none) ∧ parseHeader tok hl = some hd ∧
      findLatestVersionInFile tok content = some hd.token) ∧
    (∀ (k : Nat) (s : GoString),
      parseHeader tok (List.replicate (k + 1) 35 ++ s) = parseHeader tok (35 :: s)) := by
  constructor
  · obtain ⟨pre, hl, hd, rest, hsplit, hpre, hhl, hfind⟩ :=
      findSome_first (parseHeader tok) (splitLines content) hhas
    exact ⟨pre, hl, hd, rest, hsplit, hpre, hhl, by simp [findLatestVersionInFile, hfind]⟩
  · exact parseHeader_depth tok

set_option maxRecDepth 100000 in
/-- C4, witness: `TestFindLatestVersionInFile`. The first heading line of the test
changelog, the title `# 更新日志`, carries no version token; the first version header is
that of 1.0.1. -/
theorem findLatestVersion_first_header_witness :
    (∃ l ∈ splitLines testChangelogContent, (parseHeader startsWithDigit l).isSome = true) ∧
    parseHeader startsWithDigit (utf8 "# 更新日志") = none ∧
    findLatestVersionInFile startsWithDigit testChangelogContent = some (utf8 "1.0.1") := by
  have h1 : ∃ l ∈ splitLines testChangelogContent,
      (parseHeader startsWithDigit l).isSome = true :=
    ⟨utf8 "## 0.1.1 (2025-04-16)", by decide, by decide⟩
  refine ⟨h1, by decide, ?_⟩
  obtain ⟨⟨pre, hl, hd, rest, hsplit, hpre, hhl, hfind⟩, -⟩ :=
    findLatestVersion_first_header startsWithDigit testChangelogContent h1
  rw [hfind]
  have : findLatestVersionInFile startsWithDigit testChangelogContent = some (utf8 "1.0.1") := by
    decide
  rw [hfind] at this
  exact this


/-! ### The diff and README steps -/

theorem resolvePrevTag_prevTag (w : World) (l : List Event) (repoPath version : GoString) :
    (resolvePrevTag w l repoPath version).1.1 =
      match w.exec l repoPath (utf8 "git")
          [utf8 "describe", utf8 "--tags", utf8 "--abbrev=0", version ++ utf8 "^"] with
      | .ok out => TrimSpace out
      | .fail _ _ => [] := by
  unfold resolvePrevTag World.run
  cases w.exec l repoPath (utf8 "git")
      [utf8 "describe", utf8 "--tags", utf8 "--abbrev=0", version ++ utf8 "^"] <;> rfl

theorem readmeStep_ok (w : World) (l : List Event) (repoPath r : GoString)
    (hr : w.readFile l (w.filepathJoin repoPath (utf8 "README.md")) = .ok r) :
    readmeStep w l repoPath =
      (if r.length ≤ 2000 then r else truncateReadmeLoop (splitLines r) [] 0 ++ readmeMarker,
        l ++ [Event.readFile (w.filepathJoin repoPath (utf8 "README.md"))]) := by
  unfold readmeStep World.read
  simp only [hr]
  by_cases hlen : r.length ≤ 2000
  · simp only [hlen, if_true, gt_iff_lt, not_lt.mpr hlen, if_false]
  · simp only [hlen, if_false, gt_iff_lt, not_le.mp hlen, if_true]

theorem readmeStep_log (w : World) (l : List Event) (repoPath : GoString) :
    ∃ evs, (readmeStep w l repoPath).2 = l ++ evs := by
  cases hr : w.readFile l (w.filepathJoin repoPath (utf8 "README.md")) with
  | ok r => exact ⟨_, by rw [readmeStep_ok w l repoPath r hr]⟩
  | error err =>
    unfold readmeStep World.read
    simp only [hr, List.append_assoc]
    exact ⟨_, rfl⟩

theorem codeDiffStep_ok (w : World) (l : List Event) (repoPath version prevTag d : GoString)
    (o : Outcome)
    (hdiff : w.exec l repoPath (utf8 "git")
      (if prevTag ≠ [] then [utf8 "diff", prevTag, version] else [utf8 "show", version])
        = .ok d)
    (hns : w.exec (l ++ [Event.run repoPath (utf8 "git")
        (if prevTag ≠ [] then [utf8 "diff", prevTag, version] else [utf8 "show", version])])
      repoPath (utf8 "git")
      (if prevTag ≠ [] then [utf8 "diff", utf8 "--name-status", prevTag, version]
        else [utf8 "show", utf8 "--name-status", version]) = o) :
    codeDiffStep w l repoPath version prevTag =
      if d.length ≤ 5000 then
        (d, l ++ [Event.run repoPath (utf8 "git")
          (if prevTag ≠ [] then [utf8 "diff", prevTag, version] else [utf8 "show", version])])
      else
        let t := match o with
          | .ok n => n
          | .fail _ _ => d
        (if t.length ≤ 5000 then t else t.take 5000 ++ diffMarker,
          l ++ [Event.run repoPath (utf8 "git")
            (if prevTag ≠ [] then [utf8 "diff", prevTag, version] else [utf8 "show", version])]
          ++ [Event.run repoPath (utf8 "git")
            (if prevTag ≠ [] then [utf8 "diff", utf8 "--name-status", prevTag, version]
              else [utf8 "show", utf8 "--name-status", version])]) := by
  unfold codeDiffStep World.run
  simp only [hdiff, hns]
  by_cases hd : d.length ≤ 5000
  · simp only [hd, if_true, gt_iff_lt, not_lt.mpr hd, if_false]
  · simp only [hd, if_false, gt_iff_lt, not_le.mp hd, if_true]
    cases o with
    | ok n =>
      by_cases hn : n.length ≤ 5000
      · simp only [hn, if_true, not_lt.mpr hn, if_false]
      · simp only [hn, if_false, not_le.mp hn, if_true]
    | fail m s =>
      simp only [hd, if_false, not_le.mp hd, if_true]

/-- After a successful probe, the CodeDiff and Readme of the entry are the results of the
diff step and of the README step, run one after the other. -/
theorem GetVersionEntry_steps (w : World) (log : List Event)
    (repoPath version prevTag : GoString)
    (hprobe : (w.exec log repoPath (utf8 "git-chglog") [utf8 "--version"]).failed = false)
    (hprev : prevTag =
      match w.exec (log ++ [Event.run repoPath (utf8 "git-chglog") [utf8 "--version"]])
          repoPath (utf8 "git")
          [utf8 "describe", utf8 "--tags", utf8 "--abbrev=0", version ++ utf8 "^"] with
      | .ok out => TrimSpace out
      | .fail _ _ => []) :
    ∃ e l3, (GetVersionEntry w log repoPath version).1 = .ok e ∧
      e.CodeDiff = (codeDiffStep w l3 repoPath version prevTag).1 ∧
      e.Readme = (readmeStep w (codeDiffStep w l3 repoPath version prevTag).2 repoPath).1 ∧
      (GetVersionEntry w log repoPath version).2 =
        (readmeStep w (codeDiffStep w l3 repoPath version prevTag).2 repoPath).2 := by
  rw [GetVersionEntry_ok w log repoPath version hprobe]
  have hp : (resolvePrevTag w (log ++ [Event.run repoPath (utf8 "git-chglog")
      [utf8 "--version"]]) repoPath version).1.1 = prevTag := by
    rw [resolvePrevTag_prevTag, hprev]
  simp only [hp]
  exact ⟨_, _, rfl, rfl, rfl, rfl⟩

/-- C5, counterexample: a full diff of 1700 three-byte characters has at most 5000
characters, yet its 5100 bytes exceed the threshold of the code and CodeDiff is the
name-and-status listing, not the diff. -/
theorem getVersionEntry_codeDiff_counts_bytes :
    charCount (Repeat (utf8 "中") 1700) ≤ 5000 ∧
    (∀ h, (sampleWorld (Repeat (utf8 "中") 1700) (utf8 "A\tmain.go\n") (utf8 "# demo\n")).exec
      h (utf8 "/repo") (utf8 "git") [utf8 "show", utf8 "v1.0.0"]
        = .ok (Repeat (utf8 "中") 1700)) ∧
    (∀ h, (sampleWorld (Repeat (utf8 "中") 1700) (utf8 "A\tmain.go\n") (utf8 "# demo\n")).exec
      h (utf8 "/repo") (utf8 "git") [utf8 "show", utf8 "--name-status", utf8 "v1.0.0"]
        = .ok (utf8 "A\tmain.go\n")) ∧
    ∃ e, (GetVersionEntry
        (sampleWorld (Repeat (utf8 "中") 1700) (utf8 "A\tmain.go\n") (utf8 "# demo\n"))
        [] (utf8 "/repo") (utf8 "v1.0.0")).1 = .ok e ∧
      e.CodeDiff = utf8 "A\tmain.go\n" ∧ e.CodeDiff ≠ Repeat (utf8 "中") 1700 :=
  ⟨by decide!, fun _ => rfl, fun _ => rfl,
    ⟨{ ProjectName := utf8 "repo"
       Version := utf8 "v1.0.0"
       Date := utf8 "2025-04-22"
       Description := utf8 "## v1.0.0\n\n* first release\n"
       CodeDiff := utf8 "A\tmain.go\n"
       Readme := utf8 "# demo\n"
       SourceAdapter := utf8 "git-chglog" },
      eq_ok_of_toOption _ _ (by decide!), rfl, by decide!⟩⟩

/-- C5, amended: the diff step of `GetVersionEntry`, with lengths counted in bytes, as
Go's `len` and `codeDiff[:5000]` do. `prevTag` is the trimmed output of
`git describe --tags --abbrev=0 version^`, or empty when that command fails. The full
command is `git diff prevTag version` when `prevTag` is not empty and `git show version`
otherwise; the name-and-status command is the same with `--name-status`. When they answer
`d` and `n`: CodeDiff is `d` if `d` has at most 5000 bytes, else `n` if `n` has at most
5000 bytes, else the first 5000 bytes of `n` followed by the marker (a newline and
'...(diff 截断)'). The full command is always run, the name-and-status command when `d` is
longer than 5000 bytes. -/
theorem getVersionEntry_codeDiff (w : World) (log : List Event)
    (repoPath version prevTag d n : GoString)
    (hprobe : (w.exec log repoPath (utf8 "git-chglog") [utf8 "--version"]).failed = false)
    (hprev : prevTag =
      match w.exec (log ++ [Event.run repoPath (utf8 "git-chglog") [utf8 "--version"]])
          repoPath (utf8 "git")
          [utf8 "describe", utf8 "--tags", utf8 "--abbrev=0", version ++ utf8 "^"] with
      | .ok out => TrimSpace out
      | .fail _ _ => [])
    (hdiff : ∀ h, w.exec h repoPath (utf8 "git")
      (if prevTag ≠ [] then [utf8 "diff", prevTag, version] else [utf8 "show", version])
        = .ok d)
    (hns : ∀ h, w.exec h repoPath (utf8 "git")
      (if prevTag ≠ [] then [utf8 "diff", utf8 "--name-status", prevTag, version]
        else [utf8 "show", utf8 "--name-status", version]) = .ok n) :
    ∃ e, (GetVersionEntry w log repoPath version).1 = .ok e ∧
      e.CodeDiff =
        (if d.length ≤ 5000 then d
          else if n.length ≤ 5000 then n
          else n.take 5000 ++ utf8 "\n...(diff 截断)") ∧
      Event.run repoPath (utf8 "git")
          (if prevTag ≠ [] then [utf8 "diff", prevTag, version] else [utf8 "show", version])
        ∈ (GetVersionEntry w log repoPath version).2 ∧
      (5000 < d.length →
        Event.run repoPath (utf8 "git")
            (if prevTag ≠ [] then [utf8 "diff", utf8 "--name-status", prevTag, version]
              else [utf8 "show", utf8 "--name-status", version])
          ∈ (GetVersionEntry w log repoPath version).2) := by
  obtain ⟨e, l3, he, hcd, -, hlog⟩ :=
    GetVersionEntry_steps w log repoPath version prevTag hprobe hprev
  have hstep := codeDiffStep_ok w l3 repoPath version prevTag d (.ok n) (hdiff l3) (hns _)
  obtain ⟨evs, hevs⟩ := readmeStep_log w (codeDiffStep w l3 repoPath version prevTag).2 repoPath
  refine ⟨e, he, ?_, ?_, ?_⟩
  · rw [hcd, hstep]
    by_cases hd : d.length ≤ 5000
    · simp only [hd, if_true]
    · simp only [hd, if_false]
      rfl
  · rw [hlog, hevs, hstep]
    by_cases hd : d.length ≤ 5000
    · simp only [hd, if_true]; simp
    · simp only [hd, if_false]; simp
  · intro hd
    rw [hlog, hevs, hstep]
    simp only [not_le.mpr hd, if_false]
    simp

/-- C5, witness of the amended statement, for the first tag of a repository (no previous
tag, so `git show` is used). A diff of 5001 bytes with a short listing gives the listing;
a diff of 20 bytes is returned as it is; a diff of 5001 bytes with a listing of 5003 bytes
gives the first 5000 bytes of the listing and the marker. -/
theorem getVersionEntry_codeDiff_witness :
    (firstTagWorld.exec [] (utf8 "/repo") (utf8 "git-chglog") [utf8 "--version"]).failed
      = false ∧
    (∀ h, firstTagWorld.exec h (utf8 "/repo") (utf8 "git") [utf8 "show", utf8 "v1.0.0"]
      = .ok (List.replicate 5001 97)) ∧
    (∃ e, (GetVersionEntry firstTagWorld [] (utf8 "/repo") (utf8 "v1.0.0")).1 = .ok e ∧
      e.CodeDiff = utf8 "A\tmain.go\n") ∧
    (∃ e, (GetVersionEntry (sampleWorld (utf8 "diff --git a/x b/x\n") (utf8 "M\tx\n") [])
        [] (utf8 "/repo") (utf8 "v1.0.0")).1 = .ok e ∧
      e.CodeDiff = utf8 "diff --git a/x b/x\n") ∧
    (∃ e, (GetVersionEntry
        (sampleWorld (List.replicate 5001 97) (List.replicate 5003 98) [])
        [] (utf8 "/repo") (utf8 "v1.0.0")).1 = .ok e ∧
      e.CodeDiff = List.replicate 5000 98 ++ utf8 "\n...(diff 截断)") := by
  refine ⟨by decide, fun h => rfl, ?_, ?_, ?_⟩
  · obtain ⟨e, he, hcd, -⟩ :=
      getVersionEntry_codeDiff firstTagWorld [] (utf8 "/repo") (utf8 "v1.0.0") []
        (List.replicate 5001 97) (utf8 "A\tmain.go\n") (by decide) (by rfl)
        (fun h => rfl) (fun h => rfl)
    refine ⟨e, he, ?_⟩
    rw [hcd, if_neg (by rw [List.length_replicate]; decide), if_pos (by decide)]
  · obtain ⟨e, he, hcd, -⟩ :=
      getVersionEntry_codeDiff (sampleWorld (utf8 "diff --git a/x b/x\n") (utf8 "M\tx\n") [])
        [] (utf8 "/repo") (utf8 "v1.0.0") [] (utf8 "diff --git a/x b/x\n") (utf8 "M\tx\n")
        (by decide) (by rfl) (fun h => rfl) (fun h => rfl)
    refine ⟨e, he, ?_⟩
    rw [hcd, if_pos (by decide)]
  · obtain ⟨e, he, hcd, -⟩ :=
      getVersionEntry_codeDiff
        (sampleWorld (List.replicate 5001 97) (List.replicate 5003 98) [])
        [] (utf8 "/repo") (utf8 "v1.0.0") [] (List.replicate 5001 97)
        (List.replicate 5003 98) (by decide) (by rfl) (fun h => rfl) (fun h => rfl)
    refine ⟨e, he, hcd.trans ?_⟩
    decide!

theorem truncateReadmeLoop_eq (lines : List GoString) (acc : GoString) (c : Nat)
    (hc : c < 30) :
    truncateReadmeLoop lines acc c =
      acc ++ (((lines.map TrimSpace).filter (fun l => l ≠ [])).take (30 - c)).flatMap
        (fun l => l ++ utf8 "\n") := by
  induction lines generalizing acc c with
  | nil => simp [truncateReadmeLoop]
  | cons line rest ih =>
    unfold truncateReadmeLoop
    by_cases ht : TrimSpace line = []
    · simp only [ht, if_true, List.map_cons]
      rw [ih acc c hc]
      simp
    · simp only [ht, if_false, List.map_cons]
      have hfilter : List.filter (fun l => decide (l ≠ []))
          (TrimSpace line :: List.map TrimSpace rest) =
          TrimSpace line :: List.filter (fun l => decide (l ≠ [])) (List.map TrimSpace rest) := by
        simp [ht]
      rw [hfilter]
      by_cases h30 : c + 1 ≥ 30
      · have hc29 : 30 - c = 1 := by omega
        simp only [h30, if_true, hc29]
        simp [List.flatMap]
      · have hlt : c + 1 < 30 := by omega
        have hsub : 30 - c = (30 - (c + 1)) + 1 := by omega
        simp only [h30, if_false]
        rw [ih _ (c + 1) hlt, hsub, List.take_succ_cons]
        simp [List.flatMap]

theorem firstTagWorld_entry :
    (GetVersionEntry firstTagWorld [] (utf8 "/repo") (utf8 "v1.0.0")).1 =
      .ok {
        ProjectName := utf8 "repo"
        Version := utf8 "v1.0.0"
        Date := utf8 "2025-04-22"
        Description := utf8 "## v1.0.0\n\n* first release\n"
        CodeDiff := utf8 "A\tmain.go\n"
        Readme := List.replicate 2001 97 ++ utf8 "\n\n...(README 截断)"
        SourceAdapter := utf8 "git-chglog" } :=
  eq_ok_of_toOption _ _ (by decide!)

/-- C6, counterexample: a README of 700 three-byte characters has at most 2000 characters,
yet its 2100 bytes exceed the threshold of the code and Readme is not the README
unchanged: a newline and the marker are appended. -/
theorem getVersionEntry_readme_counts_bytes :
    charCount (Repeat (utf8 "中") 700) ≤ 2000 ∧
    (∀ h, (sampleWorld (utf8 "diff\n") [] (Repeat (utf8 "中") 700)).readFile h
      ((sampleWorld (utf8 "diff\n") [] (Repeat (utf8 "中") 700)).filepathJoin (utf8 "/repo")
        (utf8 "README.md")) = .ok (Repeat (utf8 "中") 700)) ∧
    ∃ e, (GetVersionEntry (sampleWorld (utf8 "diff\n") [] (Repeat (utf8 "中") 700))
        [] (utf8 "/repo") (utf8 "v1.0.0")).1 = .ok e ∧
      e.Readme = Repeat (utf8 "中") 700 ++ utf8 "\n\n...(README 截断)" ∧
      e.Readme ≠ Repeat (utf8 "中") 700 :=
  ⟨by decide!, fun _ => rfl,
    ⟨{ ProjectName := utf8 "repo"
       Version := utf8 "v1.0.0"
       Date := utf8 "2025-04-22"
       Description := utf8 "## v1.0.0\n\n* first release\n"
       CodeDiff := utf8 "diff\n"
       Readme := Repeat (utf8 "中") 700 ++ utf8 "\n\n...(README 截断)"
       SourceAdapter := utf8 "git-chglog" },
      eq_ok_of_toOption _ _ (by decide!), rfl, by decide!⟩⟩

/-- C6, amended: the README step of `GetVersionEntry`, with lengths counted in bytes, as
Go's `len` does. When README.md is read with content `r`:
Readme is `r` unchanged if `r` has at most 2000 bytes; otherwise it is the first 30
non-blank lines of `r` (all of them if there are fewer), in their order, each trimmed of
surrounding white space and followed by a newline, with the marker (a newline and
'...(README 截断)') appended. Blank lines are skipped and not counted. -/
theorem getVersionEntry_readme (w : World) (log : List Event) (repoPath version r : GoString)
    (hprobe : (w.exec log repoPath (utf8 "git-chglog") [utf8 "--version"]).failed = false)
    (hread : ∀ h, w.readFile h (w.filepathJoin repoPath (utf8 "README.md")) = .ok r) :
    ∃ e, (GetVersionEntry w log repoPath version).1 = .ok e ∧
      e.Readme =
        if r.length ≤ 2000 then r
        else
          ((((splitLines r).map TrimSpace).filter (fun l => l ≠ [])).take 30).flatMap
            (fun l => l ++ utf8 "\n") ++ utf8 "\n...(README 截断)" := by
  rw [GetVersionEntry_ok w log repoPath version hprobe]
  refine ⟨_, rfl, ?_⟩
  simp only []
  rw [readmeStep_ok w _ repoPath r (hread _)]
  by_cases hlen : r.length ≤ 2000
  · simp only [hlen, if_true]
  · simp only [hlen, if_false]
    rw [truncateReadmeLoop_eq _ _ 0 (by decide)]
    rfl

/-- C6, witness of the amended statement. A README of 2240 bytes with 40 padded lines of
text among 100 lines comes back as its first 30 non-blank lines, trimmed, in order, and
the marker; a README of 7 bytes comes back unchanged. -/
theorem getVersionEntry_readme_witness :
    ((sampleWorld (utf8 "diff\n") [] paddedReadme).exec [] (utf8 "/repo") (utf8 "git-chglog")
      [utf8 "--version"]).failed = false ∧
    (∀ h, (sampleWorld (utf8 "diff\n") [] paddedReadme).readFile h
      ((sampleWorld (utf8 "diff\n") [] paddedReadme).filepathJoin (utf8 "/repo")
        (utf8 "README.md")) = .ok paddedReadme) ∧
    (∃ e, (GetVersionEntry (sampleWorld (utf8 "diff\n") [] paddedReadme)
        [] (utf8 "/repo") (utf8 "v1.0.0")).1 = .ok e ∧
      e.Readme =
        Repeat (utf8 "alpha: the first kind of line, padded on both sides\nbeta: the second kind of line, padded as well\n") 15
          ++ utf8 "\n...(README 截断)") ∧
    (∃ e, (GetVersionEntry (sampleWorld (utf8 "diff\n") [] (utf8 "# demo\n"))
        [] (utf8 "/repo") (utf8 "v1.0.0")).1 = .ok e ∧
      e.Readme = utf8 "# demo\n") := by
  refine ⟨by decide, fun h => rfl, ?_, ?_⟩
  · obtain ⟨e, he, hr⟩ :=
      getVersionEntry_readme (sampleWorld (utf8 "diff\n") [] paddedReadme) []
        (utf8 "/repo") (utf8 "v1.0.0") paddedReadme (by decide) (fun h => rfl)
    refine ⟨e, he, hr.trans ?_⟩
    decide!
  · obtain ⟨e, he, hr⟩ :=
      getVersionEntry_readme (sampleWorld (utf8 "diff\n") [] (utf8 "# demo\n")) []
        (utf8 "/repo") (utf8 "v1.0.0") (utf8 "# demo\n") (by decide) (fun h => rfl)
    refine ⟨e, he, hr.trans ?_⟩
    decide!

/-! ### Truncation -/

theorem Contains_self (m : GoString) : Contains m m = true := by
  cases m with
  | nil => rfl
  | cons c cs =>
    unfold Contains
    have : (c :: cs).isPrefixOf (c :: cs) = true :=
      List.isPrefixOf_iff_prefix.mpr (List.prefix_refl _)
    simp [this]

theorem Contains_append_right (a m : GoString) : Contains (a ++ m) m = true := by
  induction a with
  | nil => exact Contains_self m
  | cons c cs ih =>
    rw [List.cons_append]
    unfold Contains
    simp [ih]

theorem codeDiffStep_length_le (w : World) (l : List Event)
    (repoPath version prevTag : GoString) :
    (codeDiffStep w l repoPath version prevTag).1.length ≤ 5000 + diffMarker.length := by
  cases hdiff : w.exec l repoPath (utf8 "git")
      (if prevTag ≠ [] then [utf8 "diff", prevTag, version] else [utf8 "show", version]) with
  | fail m s =>
    rw [codeDiffStep_failed w l repoPath version prevTag (by rw [hdiff]; rfl)]
    decide
  | ok d =>
    rw [codeDiffStep_ok w l repoPath version prevTag d _ hdiff rfl]
    by_cases hd : d.length ≤ 5000
    · simp only [hd, if_true]
      omega
    · simp only [hd, if_false]
      have hbound : ∀ t : GoString,
          (if t.length ≤ 5000 then t else t.take 5000 ++ diffMarker).length
            ≤ 5000 + diffMarker.length := by
        intro t
        split
        · omega
        · rw [List.length_append, List.length_take]
          omega
      exact hbound _

/-- C7, counterexample: a raw diff of 5001 bytes whose name-and-status listing is short
gives a CodeDiff without the marker, and a README of one line of 2001 bytes gives a Readme
of 2021 bytes, more than 2000 plus the 19 bytes of the marker. -/
theorem getVersionEntry_truncation_counterexample :
    ∃ e, (GetVersionEntry firstTagWorld [] (utf8 "/repo") (utf8 "v1.0.0")).1 = .ok e ∧
      (∀ h, firstTagWorld.exec h (utf8 "/repo") (utf8 "git") [utf8 "show", utf8 "v1.0.0"]
        = .ok (List.replicate 5001 97)) ∧
      5000 < (List.replicate 5001 (97 : UInt8)).length ∧
      Contains e.CodeDiff (utf8 "\n...(diff 截断)") = false ∧
      (∀ h, firstTagWorld.readFile h (firstTagWorld.filepathJoin (utf8 "/repo")
        (utf8 "README.md")) = .ok (List.replicate 2001 97)) ∧
      2000 < (List.replicate 2001 (97 : UInt8)).length ∧
      ¬ e.Readme.length ≤ 2000 + (utf8 "\n...(README 截断)").length :=
  ⟨_, firstTagWorld_entry, fun _ => rfl, by decide!, by decide, fun _ => rfl, by decide!,
    by decide!⟩

/-- C7, amended: for the entry returned by `GetVersionEntry`, when the raw full diff `d`
is longer than 5000 bytes, CodeDiff is at most 5000 plus the length of the diff marker
long; it is the name-and-status listing `n` itself, without marker, when `n` has at most
5000 bytes, and the first 5000 bytes of `n` followed by the marker (so it contains the
marker) when `n` is longer. Whatever the diff commands answer, when the raw README `r` is
longer than 2000 bytes, Readme is the first 30 non-blank lines of `r` (all of them if
there are fewer), each trimmed and followed by a newline, and then the README marker, so
it contains the marker; its length is not bounded by 2000 plus the marker. -/
theorem getVersionEntry_truncation (w : World) (log : List Event)
    (repoPath version : GoString)
    (hprobe : (w.exec log repoPath (utf8 "git-chglog") [utf8 "--version"]).failed = false) :
    ∃ e, (GetVersionEntry w log repoPath version).1 = .ok e ∧
      (∀ prevTag d : GoString,
        prevTag =
          (match w.exec (log ++ [Event.run repoPath (utf8 "git-chglog") [utf8 "--version"]])
              repoPath (utf8 "git")
              [utf8 "describe", utf8 "--tags", utf8 "--abbrev=0", version ++ utf8 "^"] with
            | .ok out => TrimSpace out
            | .fail _ _ => []) →
        (∀ h, w.exec h repoPath (utf8 "git")
          (if prevTag ≠ [] then [utf8 "diff", prevTag, version] else [utf8 "show", version])
            = .ok d) →
        5000 < d.length →
        e.CodeDiff.length ≤ 5000 + (utf8 "\n...(diff 截断)").length ∧
        (∀ n, (∀ h, w.exec h repoPath (utf8 "git")
            (if prevTag ≠ [] then [utf8 "diff", utf8 "--name-status", prevTag, version]
              else [utf8 "show", utf8 "--name-status", version]) = .ok n) →
          (n.length ≤ 5000 → e.CodeDiff = n) ∧
          (5000 < n.length →
            e.CodeDiff = n.take 5000 ++ utf8 "\n...(diff 截断)" ∧
            Contains e.CodeDiff (utf8 "\n...(diff 截断)") = true))) ∧
      (∀ r, (∀ h, w.readFile h (w.filepathJoin repoPath (utf8 "README.md")) = .ok r) →
        2000 < r.length →
        e.Readme =
          ((((splitLines r).map TrimSpace).filter (fun l => l ≠ [])).take 30).flatMap
            (fun l => l ++ utf8 "\n") ++ utf8 "\n...(README 截断)" ∧
        Contains e.Readme (utf8 "\n...(README 截断)") = true) := by
  rw [GetVersionEntry_ok w log repoPath version hprobe]
  refine ⟨_, rfl, ?_, ?_⟩
  · intro prevTag d hprev hdiff hlong
    have hp : (resolvePrevTag w (log ++ [Event.run repoPath (utf8 "git-chglog")
        [utf8 "--version"]]) repoPath version).1.1 = prevTag := by
      rw [resolvePrevTag_prevTag, hprev]
    simp only [hp]
    refine ⟨codeDiffStep_length_le _ _ _ _ _, ?_⟩
    intro n hns
    rw [codeDiffStep_ok w _ repoPath version prevTag d (.ok n) (hdiff _) (hns _),
      if_neg (not_le.mpr hlong)]
    constructor
    · intro hn
      simp only [if_pos hn]
    · intro hn
      simp only [if_neg (not_le.mpr hn)]
      exact ⟨rfl, Contains_append_right _ _⟩
  · intro r hread hr
    simp only []
    rw [readmeStep_ok w _ repoPath r (hread _), if_neg (not_le.mpr hr),
      truncateReadmeLoop_eq _ _ 0 (by decide)]
    exact ⟨rfl, Contains_append_right _ _⟩

/-- C7, witness of the amended statement: the first tag of a repository, with a diff of
5001 bytes, a short name-and-status listing and the padded README of 2240 bytes. -/
theorem getVersionEntry_truncation_witness :
    ((sampleWorld (List.replicate 5001 97) (utf8 "A\tmain.go\n") paddedReadme).exec []
      (utf8 "/repo") (utf8 "git-chglog") [utf8 "--version"]).failed = false ∧
    ∃ e, (GetVersionEntry
        (sampleWorld (List.replicate 5001 97) (utf8 "A\tmain.go\n") paddedReadme)
        [] (utf8 "/repo") (utf8 "v1.0.0")).1 = .ok e ∧
      e.CodeDiff.length ≤ 5000 + (utf8 "\n...(diff 截断)").length ∧
      e.CodeDiff = utf8 "A\tmain.go\n" ∧
      e.Readme =
        Repeat (utf8 "alpha: the first kind of line, padded on both sides\nbeta: the second kind of line, padded as well\n") 15
          ++ utf8 "\n...(README 截断)" ∧
      Contains e.Readme (utf8 "\n...(README 截断)") = true := by
  refine ⟨by decide, ?_⟩
  obtain ⟨e, he, hdiff, hreadme⟩ :=
    getVersionEntry_truncation
      (sampleWorld (List.replicate 5001 97) (utf8 "A\tmain.go\n") paddedReadme)
      [] (utf8 "/repo") (utf8 "v1.0.0") (by decide)
  obtain ⟨hlen, hlist⟩ := hdiff [] (List.replicate 5001 97) (by rfl) (fun _ => rfl)
    (by rw [List.length_replicate]; decide)
  obtain ⟨hr, hc⟩ := hreadme paddedReadme (fun _ => rfl) (by decide!)
  exact ⟨e, he, hlen, (hlist (utf8 "A\tmain.go\n") (fun _ => rfl)).1 (by decide),
    hr.trans (by decide!), hc⟩

/-! ### The low-information heuristic -/

theorem roundHalfEven_le (x : ℚ) (N : ℤ) (h : x ≤ N) : roundHalfEven x ≤ N := by
  have hfx : (⌊x⌋ : ℚ) ≤ x := Int.floor_le x
  have hf : ⌊x⌋ ≤ N := by exact_mod_cast hfx.trans h
  unfold roundHalfEven
  simp only []
  split
  · exact hf
  · rename_i hr
    have hlt : ⌊x⌋ < N := by
      have : (⌊x⌋ : ℚ) < N := by linarith
      exact_mod_cast this
    split
    · omega
    · split <;> omega

theorem le_roundHalfEven (x : ℚ) (N : ℤ) (h : (N : ℚ) + 1 / 2 < x) :
    N + 1 ≤ roundHalfEven x := by
  have hfx : x < (⌊x⌋ : ℚ) + 1 := Int.lt_floor_add_one x
  have hf : N ≤ ⌊x⌋ := Int.le_floor.mpr (by linarith)
  unfold roundHalfEven
  simp only []
  split
  · rename_i hr
    have : (N : ℚ) < ⌊x⌋ := by linarith
    have : N < ⌊x⌋ := by exact_mod_cast this
    omega
  · rename_i hr
    split
    · omega
    · rename_i hr2
      have : (N : ℚ) < ⌊x⌋ := by linarith
      have : N < ⌊x⌋ := by exact_mod_cast this
      split <;> omega

theorem roundHalfEven_intCast (n : ℤ) : roundHalfEven (n : ℚ) = n := by
  unfold roundHalfEven
  simp

/-- The unit in the last place used for a positive `x` below `2 ^ (b + 1)`, `b ≤ 52`,
is the inverse of a power of two that is at least `2 ^ (52 - b)`. -/
theorem roundFloat64_pos (x : ℚ) (hx : 0 < x) (b : ℤ) (hb : -1022 ≤ b)
    (hxb : x < 2 ^ (b + 1)) :
    ∃ e : ℤ, e ≤ b ∧ roundFloat64 x = roundHalfEven (x / 2 ^ (e - 52)) * 2 ^ (e - 52) := by
  refine ⟨max (Int.log 2 |x|) (-1022), ?_, ?_⟩
  · apply max_le _ hb
    rw [abs_of_pos hx]
    have h2 : x < ((2 : ℕ) : ℚ) ^ (b + 1) := by exact_mod_cast hxb
    have := (Int.lt_zpow_iff_log_lt (by norm_num : 1 < 2) hx).mp h2
    omega
  · unfold roundFloat64
    rw [if_neg (ne_of_gt hx)]

theorem zpow_sub_52 (e : ℤ) (he : e ≤ 52) :
    (2 : ℚ) ^ (e - 52) = ((2 : ℚ) ^ (52 - e).toNat)⁻¹ := by
  have h : e - 52 = -((52 - e).toNat : ℤ) := by
    rw [Int.toNat_of_nonneg (by omega)]; ring
  rw [h, zpow_neg, zpow_natCast]

theorem roundFloat64_le_half (q : ℚ) (h0 : 0 ≤ q) (h : q ≤ 1 / 2) : roundFloat64 q ≤ 1 / 2 := by
  rcases eq_or_lt_of_le h0 with h0 | hpos
  · rw [← h0]; simp [roundFloat64]
  · obtain ⟨e, he, hr⟩ := roundFloat64_pos q hpos (-1) (by norm_num) (by norm_num; linarith)
    rw [hr, zpow_sub_52 e (by omega)]
    obtain ⟨m, hm⟩ : ∃ m : ℕ, (52 - e).toNat = m + 1 := ⟨(52 - e).toNat - 1, by omega⟩
    rw [hm]
    have hpow : (0 : ℚ) < 2 ^ (m + 1) := by positivity
    have hle : roundHalfEven (q / ((2 : ℚ) ^ (m + 1))⁻¹) ≤ (2 ^ m : ℤ) := by
      apply roundHalfEven_le
      rw [div_inv_eq_mul]
      push_cast
      have : q * 2 ^ (m + 1) ≤ 1 / 2 * 2 ^ (m + 1) := by
        apply mul_le_mul_of_nonneg_right h hpow.le
      calc q * 2 ^ (m + 1) ≤ 1 / 2 * 2 ^ (m + 1) := this
        _ = 2 ^ m := by rw [pow_succ]; ring
    have hle2 : (roundHalfEven (q / ((2 : ℚ) ^ (m + 1))⁻¹) : ℚ) ≤ 2 ^ m := by exact_mod_cast hle
    calc (roundHalfEven (q / ((2 : ℚ) ^ (m + 1))⁻¹) : ℚ) * ((2 : ℚ) ^ (m + 1))⁻¹
        ≤ 2 ^ m * ((2 : ℚ) ^ (m + 1))⁻¹ := by
          apply mul_le_mul_of_nonneg_right hle2 (by positivity)
      _ = 1 / 2 := by
          rw [pow_succ]; field_simp

theorem roundFloat64_gt_half (q : ℚ) (b : ℤ) (hb : -1022 ≤ b) (hb0 : b ≤ 0)
    (hq : q < 2 ^ (b + 1)) (hgap : 1 / 2 + (2 : ℚ) ^ (b - 53) < q) :
    1 / 2 < roundFloat64 q := by
  have hpos : 0 < q := by
    have : (0 : ℚ) < 2 ^ (b - 53) := by positivity
    linarith
  obtain ⟨e, he, hr⟩ := roundFloat64_pos q hpos b hb hq
  rw [hr, zpow_sub_52 e (by omega)]
  obtain ⟨m, hm⟩ : ∃ m : ℕ, (52 - e).toNat = m + 1 := ⟨(52 - e).toNat - 1, by omega⟩
  rw [hm]
  have hpow : (0 : ℚ) < 2 ^ (m + 1) := by positivity
  have hgap2 : 1 / 2 + ((2 : ℚ) ^ (m + 2))⁻¹ < q := by
    have h1 : (2 : ℚ) ^ (e - 53) ≤ 2 ^ (b - 53) :=
      zpow_le_zpow_right₀ (by norm_num) (by omega)
    have h2 : (2 : ℚ) ^ (e - 53) = ((2 : ℚ) ^ (m + 2))⁻¹ := by
      have h : e - 53 = -((m + 2 : ℕ) : ℤ) := by
        have := Int.toNat_of_nonneg (by omega : 0 ≤ 52 - e)
        push_cast
        omega
      rw [h, zpow_neg, zpow_natCast]
    linarith
  have hge : (2 ^ m : ℤ) + 1 ≤ roundHalfEven (q / ((2 : ℚ) ^ (m + 1))⁻¹) := by
    apply le_roundHalfEven
    rw [div_inv_eq_mul]
    push_cast
    have : (1 / 2 + ((2 : ℚ) ^ (m + 2))⁻¹) * 2 ^ (m + 1) < q * 2 ^ (m + 1) :=
      mul_lt_mul_of_pos_right hgap2 hpow
    have heq : (1 / 2 + ((2 : ℚ) ^ (m + 2))⁻¹) * 2 ^ (m + 1) = 2 ^ m + 1 / 2 := by
      rw [pow_succ 2 (m + 1), pow_succ 2 m]
      field_simp
      ring
    linarith
  have hge2 : (2 : ℚ) ^ m + 1 ≤ (roundHalfEven (q / ((2 : ℚ) ^ (m + 1))⁻¹) : ℚ) := by
    exact_mod_cast hge
  have hinv : (0 : ℚ) < ((2 : ℚ) ^ (m + 1))⁻¹ := by positivity
  have hsum : ((2 : ℚ) ^ m + 1) * ((2 : ℚ) ^ (m + 1))⁻¹ = 1 / 2 + ((2 : ℚ) ^ (m + 1))⁻¹ := by
    rw [pow_succ]
    field_simp
  calc (1 : ℚ) / 2 < (2 ^ m + 1) * ((2 : ℚ) ^ (m + 1))⁻¹ := by
        rw [hsum]
        linarith
    _ ≤ (roundHalfEven (q / ((2 : ℚ) ^ (m + 1))⁻¹) : ℚ) * ((2 : ℚ) ^ (m + 1))⁻¹ := by
        apply mul_le_mul_of_nonneg_right hge2 (by positivity)

theorem float64OfInt_natCast (k : ℕ) (hk : k < 2 ^ 53) : float64OfInt (k : ℤ) = (k : ℚ) := by
  unfold float64OfInt
  rcases Nat.eq_zero_or_pos k with rfl | hpos
  · simp [roundFloat64]
  · have hkq : (0 : ℚ) < ((k : ℤ) : ℚ) := by exact_mod_cast hpos
    obtain ⟨e, he, hr⟩ := roundFloat64_pos ((k : ℤ) : ℚ) hkq 52 (by norm_num)
      (by
        rw [show (52 : ℤ) + 1 = ((53 : ℕ) : ℤ) by norm_num, zpow_natCast]
        exact_mod_cast hk)
    rw [hr, zpow_sub_52 e he, div_inv_eq_mul]
    have hint : ((k : ℤ) : ℚ) * 2 ^ (52 - e).toNat = (((k : ℤ) * 2 ^ (52 - e).toNat : ℤ) : ℚ) := by
      push_cast; ring
    rw [hint, roundHalfEven_intCast]
    push_cast
    field_simp

/-- The floating-point test of `isOnlyCommitIDs` agrees with exact arithmetic for counts
below `2 ^ 53`. -/
theorem float64_ratio_gt_half (c n : ℕ) (hn : 0 < n) (hcn : c ≤ n) (hb : n < 2 ^ 53) :
    1 / 2 < float64Div (float64OfInt c) (float64OfInt n) ↔ n < 2 * c := by
  rw [float64OfInt_natCast c (lt_of_le_of_lt hcn hb), float64OfInt_natCast n hb]
  unfold float64Div
  have hnq : (0 : ℚ) < n := by exact_mod_cast hn
  have hq1 : (c : ℚ) / n ≤ 1 := by
    rw [div_le_one hnq]; exact_mod_cast hcn
  constructor
  · intro h
    by_contra hle
    have hle2 : 2 * c ≤ n := by omega
    have : (c : ℚ) / n ≤ 1 / 2 := by
      rw [div_le_iff₀ hnq]
      have : (2 : ℚ) * c ≤ n := by exact_mod_cast hle2
      linarith
    have := roundFloat64_le_half _ (by positivity) this
    linarith
  · intro h
    have h1 : n + 1 ≤ 2 * c := h
    have hgap : (1 : ℚ) / 2 + 1 / (2 * n) ≤ (c : ℚ) / n := by
      rw [le_div_iff₀ hnq]
      have h2 : ((n : ℚ) + 1) ≤ 2 * c := by exact_mod_cast h1
      have h3 : ((1 : ℚ) / 2 + 1 / (2 * n)) * n = (n + 1) / 2 := by
        field_simp
        ring
      rw [h3]
      linarith
    rcases eq_or_lt_of_le hcn with heq | hlt
    · subst heq
      rw [div_self (ne_of_gt hnq)]
      apply roundFloat64_gt_half 1 0 (by norm_num) (by norm_num) (by norm_num)
      norm_num
    · apply roundFloat64_gt_half _ (-1) (by norm_num) (by norm_num)
      · norm_num
        rw [div_lt_one hnq]
        exact_mod_cast hlt
      · have hn54 : (2 : ℚ) * n < 2 ^ 54 := by
          have : (n : ℚ) < 2 ^ 53 := by exact_mod_cast hb
          linarith
        have : (2 : ℚ) ^ ((-1 : ℤ) - 53) < 1 / (2 * n) := by
          rw [show ((-1 : ℤ) - 53) = -((54 : ℕ) : ℤ) by norm_num, zpow_neg, zpow_natCast,
            ← one_div]
          apply one_div_lt_one_div_of_lt (by positivity) hn54
        linarith


theorem countCommitIDLines_eq (lines : List GoString) (c n : Nat) :
    countCommitIDLines lines c n =
      (c + (((lines.map TrimSpace).filter (fun l => l ≠ [])).filter commitIDPattern).length,
        n + ((lines.map TrimSpace).filter (fun l => l ≠ [])).length) := by
  induction lines generalizing c n with
  | nil => simp [countCommitIDLines]
  | cons line rest ih =>
    unfold countCommitIDLines
    by_cases ht : TrimSpace line = []
    · simp only [ht, if_true, List.map_cons]
      rw [ih c n]
      simp
    · simp only [ht, if_false, List.map_cons]
      rw [List.filter_cons_of_pos (by simpa using ht)]
      by_cases hm : commitIDPattern (TrimSpace line) = true
      · simp only [hm, if_true]
        rw [ih, List.filter_cons_of_pos hm]
        simp only [List.length_cons, Nat.add_assoc, Nat.add_comm 1]
      · have hm2 : commitIDPattern (TrimSpace line) = false := by simpa using hm
        rw [List.filter_cons_of_neg hm, hm2, if_neg (by decide), ih]
        simp only [List.length_cons, Nat.add_assoc, Nat.add_comm 1]

theorem length_splitLines_le (s : GoString) : (splitLines s).length ≤ s.length + 1 := by
  induction s with
  | nil => simp [splitLines]
  | cons c cs ih =>
    unfold splitLines
    split
    · simp only [List.length_cons]; omega
    · split
      · simp
      · rename_i l ls heq
        rw [heq] at ih
        simp only [List.length_cons] at ih ⊢
        omega

/-- C8: `isOnlyCommitIDs` is true exactly when, among the lines of the text (split on
newline, each trimmed of surrounding white space, the blank ones discarded), at least one
remains and more than half of them consist wholly of 7 to 40 hexadecimal digits (`0-9`,
`a-f`, as the pattern has them): twice the number of matching lines exceeds the number of
non-blank lines, which is the same as their ratio exceeding one half; exactly one half
gives false. The 64-bit floating-point division of the source is exact enough for this on
every text below `2 ^ 52` bytes. -/
theorem isOnlyCommitIDs_iff (content : GoString) (hlen : content.length < 2 ^ 52) :
    (isOnlyCommitIDs content = true ↔
      0 < (((splitLines content).map TrimSpace).filter (fun l => l ≠ [])).length ∧
      (((splitLines content).map TrimSpace).filter (fun l => l ≠ [])).length <
        2 * ((((splitLines content).map TrimSpace).filter (fun l => l ≠ [])).filter
          (fun l => decide (7 ≤ l.length) && decide (l.length ≤ 40) &&
            l.all (fun c => (0x30 ≤ c && c ≤ 0x39) || (0x61 ≤ c && c ≤ 0x66)))).length) ∧
    (isOnlyCommitIDs content = true ↔
      0 < (((splitLines content).map TrimSpace).filter (fun l => l ≠ [])).length ∧
      (1 : ℚ) / 2 <
        (((((splitLines content).map TrimSpace).filter (fun l => l ≠ [])).filter
          (fun l => decide (7 ≤ l.length) && decide (l.length ≤ 40) &&
            l.all (fun c => (0x30 ≤ c && c ≤ 0x39) || (0x61 ≤ c && c ≤ 0x66)))).length : ℚ) /
        ((((splitLines content).map TrimSpace).filter (fun l => l ≠ [])).length : ℚ)) := by
  have hpat : (fun l : GoString => decide (7 ≤ l.length) && decide (l.length ≤ 40) &&
      l.all (fun c => (0x30 ≤ c && c ≤ 0x39) || (0x61 ≤ c && c ≤ 0x66))) = commitIDPattern := by
    funext l
    unfold commitIDPattern isLowerHex
    congr 1
    congr 1
    funext c
    exact Bool.or_comm _ _
  rw [hpat]
  generalize hnb : ((splitLines content).map TrimSpace).filter (fun l => l ≠ []) = nb
  have hnblen : nb.length < 2 ^ 53 := by
    have h1 : nb.length ≤ ((splitLines content).map TrimSpace).length := by
      rw [← hnb]; exact List.length_filter_le _ _
    rw [List.length_map] at h1
    have h2 := length_splitLines_le content
    have h3 : (2 : ℕ) ^ 52 + 1 ≤ 2 ^ 53 := by norm_num
    omega
  have hcm : (nb.filter commitIDPattern).length ≤ nb.length := List.length_filter_le _ _
  have hmain : isOnlyCommitIDs content = true ↔
      0 < nb.length ∧ nb.length < 2 * (nb.filter commitIDPattern).length := by
    unfold isOnlyCommitIDs
    simp only []
    rw [countCommitIDLines_eq, hnb]
    simp only [Nat.zero_add, Bool.and_eq_true, decide_eq_true_eq, gt_iff_lt]
    constructor
    · rintro ⟨hpos, hratio⟩
      exact ⟨hpos, (float64_ratio_gt_half _ _ hpos hcm hnblen).mp (by exact_mod_cast hratio)⟩
    · rintro ⟨hpos, hlt⟩
      exact ⟨hpos, by exact_mod_cast (float64_ratio_gt_half _ _ hpos hcm hnblen).mpr hlt⟩
  refine ⟨hmain, hmain.trans ?_⟩
  constructor
  · rintro ⟨hpos, hlt⟩
    refine ⟨hpos, ?_⟩
    have hq : (0 : ℚ) < nb.length := by exact_mod_cast hpos
    rw [lt_div_iff₀ hq]
    have : (nb.length : ℚ) < 2 * (nb.filter commitIDPattern).length := by exact_mod_cast hlt
    linarith
  · rintro ⟨hpos, hlt⟩
    refine ⟨hpos, ?_⟩
    have hq : (0 : ℚ) < nb.length := by exact_mod_cast hpos
    rw [lt_div_iff₀ hq] at hlt
    have : (nb.length : ℚ) < 2 * (nb.filter commitIDPattern).length := by linarith
    exact_mod_cast this

/-- C8, witness: two lines of seven hexadecimal digits and one line of prose give true;
two lines of prose give false; one matching line out of two (exactly one half) gives
false. -/
theorem isOnlyCommitIDs_iff_witness :
    (utf8 "a08afaa\n5553045\nfix: trim output").length < 2 ^ 52 ∧
    isOnlyCommitIDs (utf8 "a08afaa\n5553045\nfix: trim output") = true ∧
    isOnlyCommitIDs (utf8 "fix: trim output\nadd tests") = false ∧
    isOnlyCommitIDs (utf8 "a08afaa\nadd tests") = false := by
  refine ⟨by decide, ?_, ?_, ?_⟩
  · exact (isOnlyCommitIDs_iff _ (by decide)).1.mpr (by decide)
  · rw [Bool.eq_false_iff]
    intro h
    exact absurd ((isOnlyCommitIDs_iff _ (by decide)).1.mp h) (by decide)
  · rw [Bool.eq_false_iff]
    intro h
    exact absurd ((isOnlyCommitIDs_iff _ (by decide)).1.mp h) (by decide)


/-! ### The probe, and the Version of a returned entry -/

theorem checkGitChglogExists_failed (w : World) (log : List Event) (repoPath m s : GoString)
    (h : w.exec log repoPath (utf8 "git-chglog") [utf8 "--version"] = .fail m s) :
    checkGitChglogExists w log repoPath =
      (some (if Contains m (utf8 "executable file not found") = true ∨
            Contains m (utf8 "no such file or directory") = true then
          utf8 "'git-chglog' command not found in PATH. Please install git-chglog: https://github.com/git-chglog/git-chglog"
        else
          utf8 "检查 'git-chglog --version' 在目录 '" ++ repoPath ++ utf8 "' 执行失败: "
            ++ m ++ utf8 "\nStderr:\n" ++ s),
        log ++ [Event.run repoPath (utf8 "git-chglog") [utf8 "--version"]]) := by
  unfold checkGitChglogExists World.run
  simp only [h]
  by_cases hc : Contains m (utf8 "executable file not found") = true ∨
      Contains m (utf8 "no such file or directory") = true
  · rw [if_pos hc, if_pos (by simpa using hc)]
    rfl
  · rw [if_neg hc, if_neg (by simpa using hc)]

theorem GetVersionEntry_of_check (w : World) (log : List Event)
    (repoPath version msg : GoString) (log0 : List Event)
    (h : checkGitChglogExists w log repoPath = (some msg, log0)) :
    GetVersionEntry w log repoPath version = (.error msg, log0) := by
  unfold GetVersionEntry
  rw [h]

theorem GetLatestEntry_of_check (w : World) (log : List Event)
    (repoPath msg : GoString) (log0 : List Event)
    (h : checkGitChglogExists w log repoPath = (some msg, log0)) :
    GetLatestEntry w log repoPath = (.error msg, log0) := by
  unfold GetLatestEntry
  rw [h]

theorem GetVersionEntry_version (w : World) (log : List Event) (repoPath version : GoString)
    (e : VersionEntry) (h : (GetVersionEntry w log repoPath version).1 = .ok e) :
    e.Version = version := by
  cases hp : w.exec log repoPath (utf8 "git-chglog") [utf8 "--version"] with
  | ok out =>
    rw [GetVersionEntry_ok w log repoPath version (by rw [hp]; rfl)] at h
    injection h with h
    rw [← h]
  | fail m s =>
    rw [GetVersionEntry_of_check w log repoPath version _ _
      (checkGitChglogExists_failed w log repoPath m s hp)] at h
    cases h

/-- C9, counterexample: `GetVersionEntry` asked for the empty version string returns,
once the probe has succeeded, an entry whose Version is empty. -/
theorem getVersionEntry_empty_version :
    ∃ e, (GetVersionEntry missingTagWorld [] (utf8 "/repo") []).1 = .ok e ∧ e.Version = [] :=
  ⟨_, rfl, rfl⟩

/-- C9, amended: an entry returned without error by `GetVersionEntry` has Version equal to
the requested version string, so it is different from the empty string whenever the
requested version is; an entry returned without error by `GetLatestEntry` has Version
different from the empty string, for every repository path and every outcome of the
external commands. -/
theorem returned_entry_version (w : World) (log : List Event) (repoPath : GoString) :
    (∀ version e, (GetVersionEntry w log repoPath version).1 = .ok e →
      e.Version = version ∧ (version ≠ [] → e.Version ≠ [])) ∧
    (∀ e, (GetLatestEntry w log repoPath).1 = .ok e → e.Version ≠ []) := by
  constructor
  · intro version e h
    have hv := GetVersionEntry_version w log repoPath version e h
    exact ⟨hv, fun hne => by rw [hv]; exact hne⟩
  · intro e h
    unfold GetLatestEntry at h
    cases hc : checkGitChglogExists w log repoPath with
    | mk res log0 =>
      rw [hc] at h
      cases res with
      | some err => cases h
      | none =>
        simp only [World.run] at h
        cases hd : w.exec log0 repoPath (utf8 "git")
            [utf8 "describe", utf8 "--tags", utf8 "--abbrev=0"] with
        | fail m s =>
          rw [hd] at h
          cases h
        | ok out =>
          rw [hd] at h
          simp only [] at h
          by_cases ht : TrimSpace out = []
          · rw [if_pos ht] at h
            cases h
          · rw [if_neg ht] at h
            rw [GetVersionEntry_version w _ repoPath _ e h]
            exact ht

/-- C9, witness of the amended statement: the entries returned for the tag `v1.0.0`. -/
theorem returned_entry_version_witness :
    (∃ e, (GetVersionEntry firstTagWorld [] (utf8 "/repo") (utf8 "v1.0.0")).1 = .ok e ∧
      e.Version = utf8 "v1.0.0") ∧
    (∃ e, (GetLatestEntry firstTagWorld [] (utf8 "/repo")).1 = .ok e ∧ e.Version ≠ []) := by
  have hl : (GetLatestEntry firstTagWorld [] (utf8 "/repo")).1 =
      (GetVersionEntry firstTagWorld [] (utf8 "/repo") (utf8 "v1.0.0")).1 :=
    (eq_ok_of_toOption _ _ (by decide!)).trans firstTagWorld_entry.symm
  have h := returned_entry_version firstTagWorld [] (utf8 "/repo")
  exact ⟨⟨_, firstTagWorld_entry, (h.1 _ _ firstTagWorld_entry).1⟩,
    ⟨_, hl.trans firstTagWorld_entry, h.2 _ (hl.trans firstTagWorld_entry)⟩⟩

/-- The tool-availability check as the code has it. If the probe `git-chglog --version` succeeds, no
error is returned. If it fails and the text of the error contains
'executable file not found' or 'no such file or directory', the error is the fixed
message that names 'git-chglog' and gives the installation URL; for every other failure
the error message ends with the captured stderr text. In both failure cases
`GetVersionEntry` and `GetLatestEntry` return that error, no entry, and the log of the
call holds the probe and nothing else. -/
theorem checkGitChglogExists_spec (w : World) (log : List Event) (repoPath : GoString) :
    (∀ out, w.exec log repoPath (utf8 "git-chglog") [utf8 "--version"] = .ok out →
      (checkGitChglogExists w log repoPath).1 = none) ∧
    (∀ m s, w.exec log repoPath (utf8 "git-chglog") [utf8 "--version"] = .fail m s →
      ∃ msg,
        checkGitChglogExists w log repoPath =
          (some msg, log ++ [Event.run repoPath (utf8 "git-chglog") [utf8 "--version"]]) ∧
        ((Contains m (utf8 "executable file not found") = true ∨
            Contains m (utf8 "no such file or directory") = true) →
          msg = utf8 "'git-chglog' command not found in PATH. Please install git-chglog: https://github.com/git-chglog/git-chglog" ∧
          Contains msg (utf8 "git-chglog") = true ∧
          Contains msg (utf8 "https://github.com/git-chglog/git-chglog") = true) ∧
        (¬ (Contains m (utf8 "executable file not found") = true ∨
            Contains m (utf8 "no such file or directory") = true) →
          msg = utf8 "检查 'git-chglog --version' 在目录 '" ++ repoPath ++ utf8 "' 执行失败: "
            ++ m ++ utf8 "\nStderr:\n" ++ s ∧
          Contains msg s = true) ∧
        (∀ version, GetVersionEntry w log repoPath version =
          (.error msg, log ++ [Event.run repoPath (utf8 "git-chglog") [utf8 "--version"]])) ∧
        GetLatestEntry w log repoPath =
          (.error msg, log ++ [Event.run repoPath (utf8 "git-chglog") [utf8 "--version"]])) := by
  constructor
  · intro out h
    rw [checkGitChglogExists_ok w log repoPath (by rw [h]; rfl)]
  · intro m s h
    have hc := checkGitChglogExists_failed w log repoPath m s h
    refine ⟨_, hc, ?_, ?_, fun version => GetVersionEntry_of_check w log repoPath version _ _ hc,
      GetLatestEntry_of_check w log repoPath _ _ hc⟩
    · intro hfound
      rw [if_pos hfound]
      exact ⟨rfl, by decide, by decide⟩
    · intro hnot
      rw [if_neg hnot]
      exact ⟨rfl, Contains_append_right _ _⟩

/-- Two runs of the check: a machine without `git-chglog`, and a repository in which the
tool exits with an error. -/
theorem checkGitChglogExists_spec_witness :
    (GetVersionEntry
        (exampleWorld (fun _ _ =>
          .fail (utf8 "exec: \"git-chglog\": executable file not found in $PATH") [])
          (fun _ => .error []))
        [] (utf8 "/repo") (utf8 "v1.0.0") =
      (.error (utf8 "'git-chglog' command not found in PATH. Please install git-chglog: https://github.com/git-chglog/git-chglog"),
        [Event.run (utf8 "/repo") (utf8 "git-chglog") [utf8 "--version"]])) ∧
    (GetLatestEntry
        (exampleWorld (fun _ _ => .fail (utf8 "exit status 1") (utf8 "config not found\n"))
          (fun _ => .error []))
        [] (utf8 "/repo") =
      (.error (utf8 "检查 'git-chglog --version' 在目录 '/repo' 执行失败: exit status 1\nStderr:\nconfig not found\n"),
        [Event.run (utf8 "/repo") (utf8 "git-chglog") [utf8 "--version"]])) := by
  constructor
  · obtain ⟨msg, -, hfound, -, hv, -⟩ :=
      (checkGitChglogExists_spec
        (exampleWorld (fun _ _ =>
          .fail (utf8 "exec: \"git-chglog\": executable file not found in $PATH") [])
          (fun _ => .error []))
        [] (utf8 "/repo")).2 _ _ rfl
    rw [hv, (hfound (Or.inl (by decide))).1]
    rfl
  · obtain ⟨msg, -, -, hother, -, hl⟩ :=
      (checkGitChglogExists_spec
        (exampleWorld (fun _ _ => .fail (utf8 "exit status 1") (utf8 "config not found\n"))
          (fun _ => .error []))
        [] (utf8 "/repo")).2 _ _ rfl
    have hmsg : utf8 "检查 'git-chglog --version' 在目录 '" ++ utf8 "/repo" ++ utf8 "' 执行失败: "
        ++ utf8 "exit status 1" ++ utf8 "\nStderr:\n" ++ utf8 "config not found\n" =
        utf8 "检查 'git-chglog --version' 在目录 '/repo' 执行失败: exit status 1\nStderr:\nconfig not found\n" := by
      decide!
    rw [hl, (hother (by decide)).1, hmsg, List.nil_append]

/-- C10: the tool-availability check must give ToolNotFound when the executable cannot be
found and ExecutionError, with the captured stderr, for every other probe failure. The
code decides by two substrings of the error text, and the second, 'no such file or
directory', is also in the error of a probe that could not enter the repository
directory. With `git-chglog` installed and a repository path that does not exist, the
probe fails with 'chdir /no/such/repo: no such file or directory', and the code answers
that 'git-chglog' was not found in PATH instead of reporting the execution error, from
both `GetVersionEntry` and `GetLatestEntry`. -/
theorem checkGitChglogExists_missing_directory :
    missingDirWorld.exec [] (utf8 "/no/such/repo") (utf8 "git-chglog") [utf8 "--version"] =
      .fail (utf8 "chdir /no/such/repo: no such file or directory") [] ∧
    Contains (utf8 "chdir /no/such/repo: no such file or directory")
      (utf8 "executable file not found") = false ∧
    GetVersionEntry missingDirWorld [] (utf8 "/no/such/repo") (utf8 "v1.0.0") =
      (.error (utf8 "'git-chglog' command not found in PATH. Please install git-chglog: https://github.com/git-chglog/git-chglog"),
        [Event.run (utf8 "/no/such/repo") (utf8 "git-chglog") [utf8 "--version"]]) ∧
    GetLatestEntry missingDirWorld [] (utf8 "/no/such/repo") =
      (.error (utf8 "'git-chglog' command not found in PATH. Please install git-chglog: https://github.com/git-chglog/git-chglog"),
        [Event.run (utf8 "/no/such/repo") (utf8 "git-chglog") [utf8 "--version"]]) := by
  obtain ⟨msg, -, hfound, -, hv, hl⟩ :=
    (checkGitChglogExists_spec missingDirWorld [] (utf8 "/no/such/repo")).2 _ _ rfl
  have hmsg := (hfound (Or.inr (by decide))).1
  refine ⟨rfl, by decide, ?_, ?_⟩
  · rw [hv, hmsg]
    rfl
  · rw [hl, hmsg]
    rfl

/-! ### Failures in the diff step -/

/-- C11, counterexample: the full `git show` answers 5001 bytes and the name-and-status
command, run because of that, fails; CodeDiff is the first 5000 bytes of the full diff
followed by the marker, not the placeholder '无法获取代码变更。'. -/
theorem getVersionEntry_listing_failure_keeps_diff :
    (∀ h, (listingFailsWorld.exec h (utf8 "/repo") (utf8 "git")
      [utf8 "show", utf8 "--name-status", utf8 "v1.0.0"]).failed = true) ∧
    ∃ e, (GetVersionEntry listingFailsWorld [] (utf8 "/repo") (utf8 "v1.0.0")).1 = .ok e ∧
      e.CodeDiff = List.replicate 5000 97 ++ utf8 "\n...(diff 截断)" ∧
      e.CodeDiff ≠ utf8 "无法获取代码变更。" :=
  ⟨fun _ => rfl,
    ⟨{ ProjectName := utf8 "repo"
       Version := utf8 "v1.0.0"
       Date := []
       Description := utf8 "无法生成 Changelog 内容。"
       CodeDiff := List.replicate 5000 97 ++ utf8 "\n...(diff 截断)"
       Readme := utf8 "无法读取 README 内容。"
       SourceAdapter := utf8 "git-chglog" },
      eq_ok_of_toOption _ _ (by decide!), rfl, by decide!⟩⟩

/-- C11, amended: in the diff step of `GetVersionEntry` the call succeeds whatever the
diff commands answer. When the full `git diff` / `git show` command fails, CodeDiff is
exactly the placeholder '无法获取代码变更。'. When the full command answers a diff `d`
longer than 5000 bytes and the name-and-status command then fails, that failure is
ignored: CodeDiff is the first 5000 bytes of `d` followed by the marker (a newline and
'...(diff 截断)'). -/
theorem getVersionEntry_diff_failures (w : World) (log : List Event)
    (repoPath version prevTag : GoString)
    (hprobe : (w.exec log repoPath (utf8 "git-chglog") [utf8 "--version"]).failed = false)
    (hprev : prevTag =
      match w.exec (log ++ [Event.run repoPath (utf8 "git-chglog") [utf8 "--version"]])
          repoPath (utf8 "git")
          [utf8 "describe", utf8 "--tags", utf8 "--abbrev=0", version ++ utf8 "^"] with
      | .ok out => TrimSpace out
      | .fail _ _ => []) :
    ∃ e, (GetVersionEntry w log repoPath version).1 = .ok e ∧
      ((∀ h, (w.exec h repoPath (utf8 "git")
          (if prevTag ≠ [] then [utf8 "diff", prevTag, version]
            else [utf8 "show", version])).failed = true) →
        e.CodeDiff = utf8 "无法获取代码变更。") ∧
      (∀ d, (∀ h, w.exec h repoPath (utf8 "git")
          (if prevTag ≠ [] then [utf8 "diff", prevTag, version]
            else [utf8 "show", version]) = .ok d) →
        5000 < d.length →
        (∀ h, (w.exec h repoPath (utf8 "git")
          (if prevTag ≠ [] then [utf8 "diff", utf8 "--name-status", prevTag, version]
            else [utf8 "show", utf8 "--name-status", version])).failed = true) →
        e.CodeDiff = d.take 5000 ++ utf8 "\n...(diff 截断)") := by
  obtain ⟨e, l3, he, hcd, -, -⟩ :=
    GetVersionEntry_steps w log repoPath version prevTag hprobe hprev
  refine ⟨e, he, ?_, ?_⟩
  · intro hfail
    rw [hcd]
    exact codeDiffStep_failed w l3 repoPath version prevTag (hfail l3)
  · intro d hdiff hlong hns
    obtain ⟨m, s, hfail⟩ := Outcome.eq_fail_of_failed _ (hns (l3 ++ [Event.run repoPath
      (utf8 "git")
      (if prevTag ≠ [] then [utf8 "diff", prevTag, version] else [utf8 "show", version])]))
    rw [hcd, codeDiffStep_ok w l3 repoPath version prevTag d (.fail m s) (hdiff l3) hfail,
      if_neg (not_le.mpr hlong)]
    simp only [if_neg (not_le.mpr hlong)]
    rfl

/-- C11, witness of the amended statement: the repository whose name-and-status listing
fails, and the repository whose tag is missing (every `git` command fails). -/
theorem getVersionEntry_diff_failures_witness :
    (∃ e, (GetVersionEntry listingFailsWorld [] (utf8 "/repo") (utf8 "v1.0.0")).1 = .ok e ∧
      e.CodeDiff = (List.replicate 5001 97).take 5000 ++ utf8 "\n...(diff 截断)") ∧
    (∃ e, (GetVersionEntry missingTagWorld [] (utf8 "/repo") (utf8 "v9.9.9")).1 = .ok e ∧
      e.CodeDiff = utf8 "无法获取代码变更。") := by
  constructor
  · obtain ⟨e, he, -, hkeep⟩ :=
      getVersionEntry_diff_failures listingFailsWorld [] (utf8 "/repo") (utf8 "v1.0.0") []
        (by decide) (by rfl)
    exact ⟨e, he, hkeep (List.replicate 5001 97) (fun _ => rfl)
      (by rw [List.length_replicate]; decide) (fun _ => rfl)⟩
  · obtain ⟨e, he, hplace, -⟩ :=
      getVersionEntry_diff_failures missingTagWorld [] (utf8 "/repo") (utf8 "v9.9.9") []
        (by decide) (by rfl)
    exact ⟨e, he, hplace (fun _ => rfl)⟩

end ChangelogPromoter
